import Mathlib

/-!
Shallow embedding of the Modbus engine of the VoltageEMS Comsrv service
(`src/services/Comsrv`), covering the register-word decoder (`ComBase`),
the master range planner and range processing (`ModbusMaster`), the slave
register image and request dispatcher (`ModbusSlave`), the RTU CRC framing
(`ModbusRTUMaster`), and the point-table function-code defaulting
(`ComBase::parsePointTable`).

Machine integers are modelled as `Nat`/`Int` with explicit `% 2 ^ w` where the
C++ arithmetic wraps; C++ `double` arithmetic is modelled exactly over `ℚ`
(every value the claims probe is exactly representable, so the models agree
with IEEE doubles there); fallible operations return `Option` or a `Bool`
success flag, mirroring the C++ return conventions.
-/

namespace Comsrv

/-- Modbus data types (`comBase.h`, `enum class DataType`). -/
inductive DataType
  | INT16
  | UINT16
  | INT32
  | UINT32
  | FLOAT32
  | BOOL
deriving DecidableEq, Repr

/-- Register byte orders (`comBase.h`, `enum class ByteOrder`). -/
inductive ByteOrder
  | AB
  | BA
  | ABCD
  | CDAB
  | BADC
  | DCBA
deriving DecidableEq, Repr

/-- Point directions (`comBase.h`, `enum class PointType`). -/
inductive PointType
  | DI
  | AI
  | DO
  | AO
deriving DecidableEq, Repr

/-- `struct ModbusPointConfig` (`comBase.h`).  C++ `int` fields become `Int`. -/
structure ModbusPointConfig where
  slaveId : Int := 1
  address : Int := 0
  functionCode : Int := 0
  dataType : Int := 0
  bitLength : Int := 0
deriving DecidableEq, Repr

/-- `struct DataPointConfig` (`comBase.h`).  The C++ `pointConfig_` field is a
`std::variant` whose Modbus alternative is the only one the Modbus engine
consults; `none` models `std::monostate` / a non-Modbus alternative.
`double` fields (`scale`, `offset`, `min`, `max`) are modelled over `ℚ`. -/
structure DataPointConfig where
  id : String := ""
  pointType : PointType := PointType.AI
  datatype : DataType := DataType.UINT16
  byteOrder : ByteOrder := ByteOrder.AB
  scale : ℚ := 1
  offset : ℚ := 0
  unit : String := ""
  min : ℚ := 0
  max : ℚ := 0
  isValid : Bool := true
  description : String := ""
  pointConfig : Option ModbusPointConfig := none
deriving DecidableEq, Repr

/-- `struct DataPointValue`: not defined under `src/`, fields reconstructed from
their uses in `comBase.cpp` (`parseData`, `writeDataToRedis`): `id`, `value`,
`unit`, `timestamp`, `isValid`.  The wall-clock timestamp is modelled as a
constant empty string; no claim probes it. -/
structure DataPointValue where
  id : String := ""
  value : ℚ := 0
  unit : String := ""
  timestamp : String := ""
  isValid : Bool := false
deriving DecidableEq, Repr

/-- Two's-complement reading of a 16-bit word (`static_cast<int16_t>` in
`ComBase::parseValue`). -/
def int16OfUInt16 (w : Nat) : Int :=
  if w < 2 ^ 15 then (w : Int) else (w : Int) - 2 ^ 16

/-- Two's-complement reading of a 32-bit word (`static_cast<int32_t>` at the end
of `ComBase::combine32Bit`). -/
def int32OfUInt32 (n : Nat) : Int :=
  if n < 2 ^ 31 then (n : Int) else (n : Int) - 2 ^ 32

/-- The `uint32_t result` computed by `ComBase::combine32Bit`
(`comBase.cpp:369-398`), before the final `int32_t` cast.  The C++ operand
types are mirrored: `high` and `low` are `uint16_t` promoted to 32-bit `int`
inside the expressions, so `high << 8` and `low << 8` keep bits 16..23; only
the BADC case's first operand is truncated, by the `uint32_t` cast followed by
`<< 16` (hence the explicit `% 2 ^ 32`).  The `default:` branch of the switch
covers `AB`/`BA`. -/
def combine32BitU (high low : Nat) (order : ByteOrder) : Nat :=
  match order with
  | ByteOrder.ABCD => (high <<< 16) ||| low
  | ByteOrder.CDAB => (low <<< 16) ||| high
  | ByteOrder.BADC =>
      (((((high >>> 8) ||| (high <<< 8)) <<< 16) % 2 ^ 32) ||| (low >>> 8))
        ||| (low <<< 8)
  | ByteOrder.DCBA =>
      ((((low &&& 0xFF) <<< 24) ||| ((low &&& 0xFF00) <<< 8))
          ||| ((high &&& 0xFF) <<< 8))
        ||| ((high &&& 0xFF00) >>> 8)
  | _ => (high <<< 16) ||| low

/-- `ComBase::combine32Bit` (`comBase.cpp:369-398`): the combined word read as a
signed 32-bit integer. -/
def combine32Bit (high low : Nat) (order : ByteOrder) : Int :=
  int32OfUInt32 (combine32BitU high low order)

/-- Exact rational value of an IEEE-754 binary32 bit pattern.
`ComBase::combineFloat` reinterprets the combined `uint32_t` as `float` via
`memcpy`; infinities and NaNs (exponent field 255) have no rational value and
are mapped to 0 — no claim probes them. -/
def float32OfBits (bits : Nat) : ℚ :=
  let s := bits >>> 31
  let e := (bits >>> 23) &&& 0xFF
  let m := bits &&& 0x7FFFFF
  let mag : ℚ :=
    if e = 0 then (m : ℚ) * (2 : ℚ) ^ (-149 : ℤ)
    else if e = 255 then 0
    else ((2 ^ 23 + m : ℕ) : ℚ) * (2 : ℚ) ^ ((e : ℤ) - 150)
  if s = 1 then -mag else mag

/-- `ComBase::combineFloat` (`comBase.cpp:400-405`). -/
def combineFloat (high low : Nat) (order : ByteOrder) : ℚ :=
  float32OfBits (combine32BitU high low order)

/-- The 32-bit assembly the specification describes (spec §4.8), defined from
the spec's words for comparison with `combine32BitU`: word `w` has high byte
`w1` and low byte `w0`; `ABCD = H1 H0 L1 L0`, `CDAB = L1 L0 H1 H0`,
`BADC = H0 H1 L0 L1`, `DCBA = L0 L1 H0 H1` (most-significant byte first). -/
def specCombine32 (high low : Nat) (order : ByteOrder) : Nat :=
  let h1 := (high >>> 8) &&& 0xFF
  let h0 := high &&& 0xFF
  let l1 := (low >>> 8) &&& 0xFF
  let l0 := low &&& 0xFF
  let bytes4 : Nat → Nat → Nat → Nat → Nat := fun a b c d =>
    ((((a <<< 8) ||| b) <<< 8 ||| c) <<< 8) ||| d
  match order with
  | ByteOrder.ABCD => bytes4 h1 h0 l1 l0
  | ByteOrder.CDAB => bytes4 l1 l0 h1 h0
  | ByteOrder.BADC => bytes4 h0 h1 l0 l1
  | ByteOrder.DCBA => bytes4 l0 l1 h0 h1
  | _ => bytes4 h1 h0 l1 l0

/-- `ComBase::parseValue` (`comBase.cpp:344-367`).  The C++ indexes `rawData[0]`
and `rawData[1]` unchecked; it is only reached from `parseData` after the
length guard, so the total `getD _ 0` reads model the same accesses. -/
def parseValue (rawData : List Nat) (config : DataPointConfig) : ℚ :=
  match config.datatype with
  | DataType.INT16 => (int16OfUInt16 (rawData.getD 0 0) : ℚ)
  | DataType.UINT16 => (rawData.getD 0 0 : ℚ)
  | DataType.INT32 =>
      (combine32Bit (rawData.getD 0 0) (rawData.getD 1 0) config.byteOrder : ℚ)
  | DataType.UINT32 =>
      (combine32BitU (rawData.getD 0 0) (rawData.getD 1 0) config.byteOrder : ℚ)
  | DataType.FLOAT32 =>
      combineFloat (rawData.getD 0 0) (rawData.getD 1 0) config.byteOrder
  | DataType.BOOL => if rawData.getD 0 0 ≠ 0 then 1 else 0

/-- `ComBase::validateValue` (`comBase.cpp:407-420`). -/
def validateValue (value : ℚ) (config : DataPointConfig) : Bool :=
  if ¬ config.isValid then false
  else if config.min ≠ config.max then
    if value < config.min ∨ value > config.max then false else true
  else true

/-- First-match association lookup, modelling `std::map::find` on the
`dataPoints_` map (keys are unique in a `std::map`). -/
def lookupPoint : List (String × DataPointConfig) → String → Option DataPointConfig
  | [], _ => none
  | (k, v) :: rest, id => if k = id then some v else lookupPoint rest id

/-- `ComBase::parseData` (`comBase.cpp:309-342`). -/
def parseData (dataPoints : List (String × DataPointConfig)) (id : String)
    (rawData : List Nat) : DataPointValue :=
  let result : DataPointValue := { id := id, isValid := false, timestamp := "" }
  match lookupPoint dataPoints id with
  | none => result
  | some config =>
      let result := { result with unit := config.unit }
      let requiredLength : Nat :=
        if config.datatype = DataType.INT32 ∨ config.datatype = DataType.UINT32
            ∨ config.datatype = DataType.FLOAT32 then 2 else 1
      if rawData.length < requiredLength then result
      else
        let value := parseValue rawData config
        let value := value * config.scale + config.offset
        { result with isValid := validateValue value config, value := value }

/-- `struct AddressRange` (`modbusSlave.h:16-21`). -/
structure AddressRange where
  startAddress : Int
  quantity : Int
  functionCode : Int
  pointIds : List String
deriving DecidableEq, Repr

/-- `ModbusMaster::getPointSize` (`modbusMaster.cpp:648-663`). -/
def getPointSize (type : DataType) : Int :=
  match type with
  | DataType.BOOL => 1
  | DataType.INT16 => 1
  | DataType.UINT16 => 1
  | DataType.INT32 => 2
  | DataType.UINT32 => 2
  | DataType.FLOAT32 => 2

/-- The per-point body of the loop in `ModbusMaster::processRangeData`
(`modbusMaster.cpp:798-874`): `some value` when the point's decoded value is
handed to `writeDataToRedis` (published to the bus), `none` when the point is
skipped or only logged.  The `continue` branches (unknown point, non-Modbus
point, bad offset, insufficient data) and the `else` branch for invalid
values all yield `none`. -/
def processRangePoint (range : AddressRange) (values : List Nat)
    (points : List (String × DataPointConfig)) (pointId : String) :
    Option DataPointValue :=
  match lookupPoint points pointId with
  | none => none
  | some config =>
      match config.pointConfig with
      | none => none
      | some modbus =>
          let offset : Int := modbus.address - range.startAddress
          if offset < 0 ∨ offset ≥ (values.length : Int) then none
          else
            let pointSize : Int := getPointSize config.datatype
            if offset + pointSize > (values.length : Int) then none
            else
              let pointData := (values.drop offset.toNat).take pointSize.toNat
              let value := parseData points pointId pointData
              if value.isValid then some value else none

/-- `ModbusMaster::processRangeData` (`modbusMaster.cpp:783-874`): the list of
values written to the bus.  The guard mirrors the C++
`values.size() < range.quantity` comparison, in which the `int` quantity is
converted to `size_t` (hence the `% 2 ^ 64`). -/
def processRangeData (range : AddressRange) (values : List Nat)
    (points : List (String × DataPointConfig)) : List DataPointValue :=
  if (values.length : Int) < range.quantity % (2 ^ 64 : Int) then []
  else range.pointIds.filterMap (processRangePoint range values points)

/-- The holding-register part of the libmodbus `modbus_mapping_t` the slave
allocates at channel start (`mapping_->nb_registers`,
`mapping_->tab_registers`); FC 3/6/16 touch no other part. -/
structure ModbusMapping where
  nb_registers : Nat
  tab_registers : List Nat
deriving DecidableEq, Repr

/-- The slave register-image state consulted by FC 3/6/16
(`ModbusSlave::holdingRegisters_`, a `std::map<int, uint16_t>`, plus the
optional mapping).  Addresses reaching these accessors are parsed from two
request bytes, hence in `[0, 65535]`, and are modelled as `Nat`. -/
structure SlaveImage where
  holdingRegisters : List (Nat × Nat) := []
  mapping : Option ModbusMapping := none
deriving DecidableEq, Repr

/-- `std::map::find`: first matching key. -/
def mapFind? : List (Nat × Nat) → Nat → Option Nat
  | [], _ => none
  | (k, v) :: rest, a => if k = a then some v else mapFind? rest a

/-- `std::map::operator[] = value`: update in place or append. -/
def mapSet : List (Nat × Nat) → Nat → Nat → List (Nat × Nat)
  | [], k, v => [(k, v)]
  | (k0, v0) :: rest, k, v =>
      if k0 = k then (k0, v) :: rest else (k0, v0) :: mapSet rest k v

/-- The lookup performed for one address inside
`ModbusSlave::getHoldingRegister(s)` (`modbusSlave.cpp:452-519`): the
`holdingRegisters_` map first, then the mapping when the address is inside its
allocated range; `none` means "not found" (the `allFound = false` branch). -/
def getHoldingRegisterAux (img : SlaveImage) (address : Nat) : Option Nat :=
  match mapFind? img.holdingRegisters address with
  | some v => some v
  | none =>
      match img.mapping with
      | some m =>
          if address < m.nb_registers then some (m.tab_registers.getD address 0)
          else none
      | none => none

/-- `ModbusSlave::getHoldingRegisters` (`modbusSlave.cpp:497-519`): the loop
over `[startAddress, startAddress + quantity)`, returning the values vector
(missing addresses keep the 0 from `values.resize(quantity, 0)`) and the
`allFound` flag. -/
def getHoldingRegisters (img : SlaveImage) (startAddress : Nat) :
    Nat → List Nat × Bool
  | 0 => ([], true)
  | n + 1 =>
      let rest := getHoldingRegisters img (startAddress + 1) n
      match getHoldingRegisterAux img startAddress with
      | some v => (v :: rest.1, rest.2)
      | none => (0 :: rest.1, false)

/-- `ModbusSlave::setHoldingRegister` (`modbusSlave.cpp:433-450`): updates the
map, updates the mapping when the address is inside its range (otherwise only
logs a warning), and always returns `true`. -/
def setHoldingRegister (img : SlaveImage) (address value : Nat) :
    SlaveImage × Bool :=
  let img := { img with holdingRegisters := mapSet img.holdingRegisters address value }
  match img.mapping with
  | some m =>
      if address < m.nb_registers then
        ({ img with mapping := some { m with tab_registers := m.tab_registers.set address value } },
          true)
      else (img, true)
  | none => (img, true)

/-- The first loop of `ModbusSlave::setHoldingRegisters`: insert each value
into the `holdingRegisters_` map at consecutive addresses. -/
def setMapLoop : List (Nat × Nat) → Nat → List Nat → List (Nat × Nat)
  | hr, _, [] => hr
  | hr, start, v :: rest => setMapLoop (mapSet hr start v) (start + 1) rest

/-- The second loop of `ModbusSlave::setHoldingRegisters`: update the mapping
table at each in-range address (out-of-range addresses only log a warning). -/
def setTabLoop : List Nat → Nat → Nat → List Nat → List Nat
  | tab, _, _, [] => tab
  | tab, nb, start, v :: rest =>
      setTabLoop (if start < nb then tab.set start v else tab) nb (start + 1) rest

/-- `ModbusSlave::setHoldingRegisters` (`modbusSlave.cpp:471-495`): both loops;
always returns `true`. -/
def setHoldingRegisters (img : SlaveImage) (startAddress : Nat)
    (values : List Nat) : SlaveImage × Bool :=
  let hr := setMapLoop img.holdingRegisters startAddress values
  let mp :=
    match img.mapping with
    | some m =>
        some { m with tab_registers := setTabLoop m.tab_registers m.nb_registers startAddress values }
    | none => none
  ({ holdingRegisters := hr, mapping := mp }, true)

/-- `ModbusSlave::buildExceptionResponse` (`modbusSlave.cpp:638-652`): writes
`functionCode | 0x80` and the exception code at buffer positions 0 and 1 and
sets the response length to 2. -/
def buildExceptionResponse (functionCode exceptionCode : Nat)
    (response : List Nat) : List Nat × Nat :=
  (((response.set 0 (functionCode ||| 0x80)).set 1 exceptionCode), 2)

/-- The register-packing loop of `ModbusSlave::processReadHoldingRegisters`:
value `i` is written big-endian at buffer positions `pos + 2 i` and
`pos + 2 i + 1`. -/
def packRegisters : List Nat → Nat → List Nat → List Nat
  | buf, _, [] => buf
  | buf, pos, v :: rest =>
      packRegisters ((buf.set pos ((v >>> 8) &&& 0xFF)).set (pos + 1) (v &&& 0xFF))
        (pos + 2) rest

/-- `ModbusSlave::processReadHoldingRegisters` (`modbusSlave.cpp:739-773`):
returns the mutated buffer and the response length.  The handler mutates the
request buffer in place; byte reads of the well-formed request are modelled
with `getD _ 0`. -/
def processReadHoldingRegisters (img : SlaveImage) (request : List Nat)
    (offset : Nat) : List Nat × Nat :=
  let address := (request.getD (offset + 1) 0) <<< 8 ||| request.getD (offset + 2) 0
  let quantity := (request.getD (offset + 3) 0) <<< 8 ||| request.getD (offset + 4) 0
  if quantity < 1 ∨ quantity > 125 then
    buildExceptionResponse (request.getD offset 0) 0x03 request
  else
    let res := getHoldingRegisters img address quantity
    if ¬ res.2 then
      buildExceptionResponse (request.getD offset 0) 0x02 request
    else
      let byteCount := quantity * 2
      let buf := request.set (offset + 1) byteCount
      (packRegisters buf (offset + 2) res.1, offset + 2 + byteCount)

/-- `ModbusSlave::processWriteSingleRegister` (`modbusSlave.cpp:839-859`):
returns the new image, the fired register-write callback events, the response
buffer and the response length.  The `success` test mirrors the C++ call to
`setHoldingRegister`, whose result is always `true`. -/
def processWriteSingleRegister (img : SlaveImage) (request : List Nat)
    (offset : Nat) : SlaveImage × List (Nat × Nat) × List Nat × Nat :=
  let address := (request.getD (offset + 1) 0) <<< 8 ||| request.getD (offset + 2) 0
  let value := (request.getD (offset + 3) 0) <<< 8 ||| request.getD (offset + 4) 0
  let res := setHoldingRegister img address value
  if ¬ res.2 then
    let exc := buildExceptionResponse (request.getD offset 0) 0x02 request
    (res.1, [], exc.1, exc.2)
  else
    (res.1, [(address, value)], request, offset + 5)

/-- The value-extraction loop of `ModbusSlave::processWriteMultipleRegisters`:
register `i` is read big-endian from buffer positions `pos + 2 i` and
`pos + 2 i + 1`. -/
def extractRegisters (request : List Nat) : Nat → Nat → List Nat
  | _, 0 => []
  | pos, n + 1 =>
      ((request.getD pos 0) <<< 8 ||| request.getD (pos + 1) 0)
        :: extractRegisters request (pos + 2) n

/-- The callback loop of `ModbusSlave::processWriteMultipleRegisters`:
one register-write event per word, in address order. -/
def writeCallbacks (address : Nat) : List Nat → List (Nat × Nat)
  | [] => []
  | v :: rest => (address, v) :: writeCallbacks (address + 1) rest

/-- `ModbusSlave::processWriteMultipleRegisters` (`modbusSlave.cpp:908-951`):
returns the new image, the fired register-write callback events, the response
buffer and the response length. -/
def processWriteMultipleRegisters (img : SlaveImage) (request : List Nat)
    (offset : Nat) : SlaveImage × List (Nat × Nat) × List Nat × Nat :=
  let address := (request.getD (offset + 1) 0) <<< 8 ||| request.getD (offset + 2) 0
  let quantity := (request.getD (offset + 3) 0) <<< 8 ||| request.getD (offset + 4) 0
  let byteCount := request.getD (offset + 5) 0
  if quantity < 1 ∨ quantity > 123 ∨ byteCount ≠ quantity * 2 then
    buildExceptionResponse (request.getD offset 0) 0x03 request
      |> fun exc => (img, [], exc.1, exc.2)
  else
    let values := extractRegisters request (offset + 6) quantity
    let res := setHoldingRegisters img address values
    if ¬ res.2 then
      buildExceptionResponse (request.getD offset 0) 0x02 request
        |> fun exc => (res.1, [], exc.1, exc.2)
    else
      (res.1, writeCallbacks address values, request, offset + 5)


/-- Modelled from the spec: `ModbusRTUMaster::calculateCRC` is declared in
`modbusRTUMaster.h:173` and called from `sendRequest`, but its body is not
among the sources; the spec fixes it as CRC16-IBM with polynomial `0xA001` and
initial value `0xFFFF` (spec §4.4, §6).  One shift-xor round of the standard
reflected algorithm. -/
def crcRound (c : Nat) : Nat :=
  if c % 2 = 1 then (c >>> 1) ^^^ 0xA001 else c >>> 1

/-- Eight bit-rounds per input byte. -/
def crcRound8 (c : Nat) : Nat :=
  crcRound (crcRound (crcRound (crcRound (crcRound (crcRound (crcRound (crcRound c)))))))

/-- Absorb one byte into the running CRC. -/
def crcByte (c b : Nat) : Nat := crcRound8 (c ^^^ b)

/-- Modelled from the spec: the CRC16 of a byte sequence (poly `0xA001`, init
`0xFFFF`). -/
def calculateCRC (data : List Nat) : Nat := data.foldl crcByte 0xFFFF

/-- `n` byte-rounds from a given state; only used to express CRC differences. -/
def crcIter : Nat → Nat → Nat
  | 0, c => c
  | n + 1, c => crcIter n (crcRound8 c)

/-- The framing step of `ModbusRTUMaster::sendRequest`
(`modbusRTUMaster.cpp:60-63`): append `crc & 0xFF` then `(crc >> 8) & 0xFF`
(little-endian on the wire). -/
def appendCRC (frame : List Nat) : List Nat :=
  let crc := calculateCRC frame
  frame ++ [crc &&& 0xFF, (crc >>> 8) &&& 0xFF]

/-- The verification step of `ModbusRTUMaster::sendRequest`
(`modbusRTUMaster.cpp:169-176`): recompute the CRC over all but the last two
bytes and compare with `(buffer[n-1] << 8) | buffer[n-2]`. -/
def verifyCRC (buffer : List Nat) : Bool :=
  let n := buffer.length
  let received_crc := (buffer.getD (n - 1) 0) <<< 8 ||| buffer.getD (n - 2) 0
  let calculated_crc := calculateCRC (buffer.take (n - 2))
  received_crc == calculated_crc

/-- Flip bit `k` of byte `i`. -/
def flipBit (l : List Nat) (i k : Nat) : List Nat :=
  l.set i ((l.getD i 0) ^^^ (1 <<< k))

/-- The planner's working entry (the local `struct PointAddress` of
`ModbusMaster::analyzeAddressRanges`, `modbusMaster.cpp:677-682`). -/
structure PointAddress where
  id : String
  address : Int
  size : Int
  functionCode : Int
deriving DecidableEq, Repr

/-- The filter-and-project step of `ModbusMaster::analyzeAddressRanges`
(`modbusMaster.cpp:684-702`): non-Modbus points are skipped, the size comes
from `getPointSize`. -/
def toPointAddresses (points : List (String × DataPointConfig)) :
    List PointAddress :=
  points.filterMap fun p =>
    match p.2.pointConfig with
    | none => none
    | some modbus =>
        some { id := p.1, address := modbus.address,
               size := getPointSize p.2.datatype,
               functionCode := modbus.functionCode }

/-- The `std::sort` comparator of `analyzeAddressRanges`
(`modbusMaster.cpp:705-711`): function code first, then address. -/
def paLE (a b : PointAddress) : Prop :=
  a.functionCode < b.functionCode ∨
    (a.functionCode = b.functionCode ∧ a.address ≤ b.address)

instance : DecidableRel paLE := fun a b => by
  unfold paLE
  infer_instance

instance : IsTotal PointAddress paLE :=
  ⟨by
    intro a b
    unfold paLE
    omega⟩

instance : IsTrans PointAddress paLE :=
  ⟨by
    intro a b c hab hbc
    unfold paLE at *
    omega⟩

/-- Register spans of two points with the same function code do not overlap. -/
def sameFcDisjoint (a b : PointAddress) : Prop :=
  a.functionCode = b.functionCode →
    (a.address + a.size ≤ b.address ∨ b.address + b.size ≤ a.address)

instance (a b : PointAddress) : Decidable (sameFcDisjoint a b) := by
  unfold sameFcDisjoint
  infer_instance

/-- Last register address covered by a range. -/
def rangeEnd (r : AddressRange) : Int := r.startAddress + r.quantity - 1

/-- Two ranges cover no common register address. -/
def rangesDisjoint (r1 r2 : AddressRange) : Prop :=
  rangeEnd r1 < r2.startAddress ∨ rangeEnd r2 < r1.startAddress

instance (r1 r2 : AddressRange) : Decidable (rangesDisjoint r1 r2) := by
  unfold rangesDisjoint rangeEnd
  infer_instance

/-- The point's full register span lies inside the range. -/
def spanInRange (p : PointAddress) (r : AddressRange) : Prop :=
  r.startAddress ≤ p.address ∧ p.address + p.size - 1 ≤ rangeEnd r

instance (p : PointAddress) (r : AddressRange) : Decidable (spanInRange p r) := by
  unfold spanInRange rangeEnd
  infer_instance

/-- The grouping loop of `ModbusMaster::analyzeAddressRanges`
(`modbusMaster.cpp:719-781`), running over the sorted tail with the current
range (`currentFunctionCode`, `currentStartAddress`, `currentEndAddress`,
`currentPointIds`) as accumulator; the final range is always emitted since
`currentPointIds` is never empty. -/
def groupLoop (maxRead : Int) :
    List PointAddress → Int → Int → Int → List String → List AddressRange
  | [], currentFC, currentStart, currentEnd, currentIds =>
      [{ startAddress := currentStart, quantity := currentEnd - currentStart + 1,
         functionCode := currentFC, pointIds := currentIds }]
  | point :: rest, currentFC, currentStart, currentEnd, currentIds =>
      if point.functionCode ≠ currentFC then
        { startAddress := currentStart, quantity := currentEnd - currentStart + 1,
          functionCode := currentFC, pointIds := currentIds } ::
          groupLoop maxRead rest point.functionCode point.address
            (point.address + point.size - 1) [point.id]
      else if point.address - (currentEnd + 1) > 10 ∨
          point.address + point.size - currentStart > maxRead then
        { startAddress := currentStart, quantity := currentEnd - currentStart + 1,
          functionCode := currentFC, pointIds := currentIds } ::
          groupLoop maxRead rest currentFC point.address
            (point.address + point.size - 1) [point.id]
      else
        groupLoop maxRead rest currentFC currentStart
          (max currentEnd (point.address + point.size - 1))
          (currentIds ++ [point.id])

/-- Sort-then-group on the planner's working vector.  The C++ uses `std::sort`
(unstable); insertion sort realises one valid sorted order, and the stated
properties are insensitive to the order of ties. -/
def analyzeRanges (pointAddresses : List PointAddress) (maxRead : Int) :
    List AddressRange :=
  match List.insertionSort paLE pointAddresses with
  | [] => []
  | p0 :: rest =>
      groupLoop maxRead rest p0.functionCode p0.address
        (p0.address + p0.size - 1) [p0.id]

/-- `ModbusMaster::analyzeAddressRanges` (`modbusMaster.cpp:666-781`). -/
def analyzeAddressRanges (points : List (String × DataPointConfig))
    (maxRead : Int) : List AddressRange :=
  analyzeRanges (toPointAddresses points) maxRead

/-- Two overlapping 32-bit points on function code 3, used with cap 1 to probe
the planner's claimed bounds. -/
def c2Points : List (String × DataPointConfig) :=
  [("p1", { datatype := DataType.INT32,
            pointConfig := some { slaveId := 1, address := 0, functionCode := 3 } }),
   ("p2", { datatype := DataType.INT32,
            pointConfig := some { slaveId := 1, address := 1, functionCode := 3 } })]

/-- The spec §8 scenario 3 point set: holding registers
`{100, 101, 102, 108, 130}`. -/
def c2wPoints : List (String × DataPointConfig) :=
  [("a", { datatype := DataType.UINT16,
           pointConfig := some { slaveId := 1, address := 100, functionCode := 3 } }),
   ("b", { datatype := DataType.UINT16,
           pointConfig := some { slaveId := 1, address := 101, functionCode := 3 } }),
   ("c", { datatype := DataType.UINT16,
           pointConfig := some { slaveId := 1, address := 102, functionCode := 3 } }),
   ("d", { datatype := DataType.UINT16,
           pointConfig := some { slaveId := 1, address := 108, functionCode := 3 } }),
   ("e", { datatype := DataType.UINT16,
           pointConfig := some { slaveId := 1, address := 130, functionCode := 3 } })]

/-- Value of a decimal digit string. -/
def digitsToNat (ds : List Char) : Nat :=
  ds.foldl (fun acc c => acc * 10 + (c.toNat - 48)) 0

/-- Parse an optionally signed decimal digit prefix. -/
def stoiAux (sign : Int) (cs : List Char) : Option Int :=
  let ds := cs.takeWhile Char.isDigit
  if ds.isEmpty then none else some (sign * (digitsToNat ds : Int))

/-- Model of `std::stoi` as used by `ComBase::parsePointTable`: skip leading
spaces, accept an optional sign, then a non-empty decimal digit prefix;
`none` models the `std::invalid_argument` throw, which makes
`parsePointTable` skip the row. -/
def stoiModel (s : String) : Option Int :=
  match s.data.dropWhile (fun c => c = ' ') with
  | '-' :: rest => stoiAux (-1) rest
  | '+' :: rest => stoiAux 1 rest
  | cs => stoiAux 1 cs

/-- The `point_type` → default function-code switch of
`ComBase::parsePointTable` (`comBase.cpp:823-830`). -/
def defaultFunctionCode : PointType → Int
  | PointType.DI => 2
  | PointType.AI => 4
  | PointType.DO => 5
  | PointType.AO => 6

/-- The function-code selection of `ComBase::parsePointTable`
(`comBase.cpp:820-832`): `funcCodeCol` is the index of the `functioncode`
header column (`none` models the C++ `-1`, column absent); when the column
exists and the row has a cell there, `std::stoi` of that cell is used,
otherwise the default derived from the point type. -/
def selectFunctionCode (funcCodeCol : Option Nat) (tokens : List String)
    (type : PointType) : Option Int :=
  match funcCodeCol with
  | some c =>
      if tokens.length > c then stoiModel (tokens.getD c "")
      else some (defaultFunctionCode type)
  | none => some (defaultFunctionCode type)

/-- A concrete analog point with validation window `[0, 10]`, used to probe the
publication path. -/
def c3Point : DataPointConfig :=
  { id := "p", pointType := PointType.AI, datatype := DataType.UINT16,
    byteOrder := ByteOrder.AB, scale := 1, offset := 0, min := 0, max := 10,
    isValid := true,
    pointConfig := some { slaveId := 1, address := 0, functionCode := 3 } }

/-- The single-register range that reads `c3Point`. -/
def c3Range : AddressRange :=
  { startAddress := 0, quantity := 1, functionCode := 3, pointIds := ["p"] }

/-- The start address parsed by every register handler:
`(request[offset+1] << 8) | request[offset+2]`. -/
def parsedAddress (request : List Nat) (offset : Nat) : Nat :=
  (request.getD (offset + 1) 0) <<< 8 ||| request.getD (offset + 2) 0

/-- The quantity parsed by the read handlers:
`(request[offset+3] << 8) | request[offset+4]`. -/
def parsedQuantity (request : List Nat) (offset : Nat) : Nat :=
  (request.getD (offset + 3) 0) <<< 8 ||| request.getD (offset + 4) 0

/-! ### Claim C1 — 32-bit assembly by byte order -/

/-- C1: the decoder does not assemble `BADC` as `H0 H1 L0 L1`.  At
`high = 0x0000`, `low = 0xFF00` the code computes `0x00FF00FF` while the
specified assembly is `0x000000FF`: in the C++ expression
`(low >> 8) | (low << 8)` the operands are promoted to `int`, so `low << 8`
keeps the high byte of `low` at bits 16..23, which is OR-ed into the `H1`
byte of the result. -/
theorem c1_badc_combine_bug :
    combine32BitU 0x0000 0xFF00 ByteOrder.BADC = 0x00FF00FF ∧
    specCombine32 0x0000 0xFF00 ByteOrder.BADC = 0x000000FF ∧
    combine32BitU 0x0000 0xFF00 ByteOrder.BADC ≠
      specCombine32 0x0000 0xFF00 ByteOrder.BADC := by
  decide

/-! ### Claim C4 — 16-bit byte order -/

/-- C4 counterexample: for a `uint16` point with `byte_order = BA` and register
word `0x1234`, `parseValue` yields the word as-is (`0x1234 = 4660`), not the
byte-swapped word (`0x3412 = 13330`) the claim requires. -/
theorem c4_ba_not_swapped :
    parseValue [0x1234]
        { datatype := DataType.UINT16, byteOrder := ByteOrder.BA } = (0x1234 : ℚ) ∧
    parseValue [0x1234]
        { datatype := DataType.UINT16, byteOrder := ByteOrder.BA } ≠ (0x3412 : ℚ) := by
  constructor
  · rfl
  · decide

/-- C4 (amended): for 16-bit points (`int16` / `uint16`) the decoder uses
`words[0]` as-is under every byte order — the `BA` byte swap is not applied;
sign interpretation (and, in `parseData`, scaling) acts on the unswapped
word. -/
theorem c4_16bit_byteorder_ignored (config : DataPointConfig) (w : Nat)
    (rest : List Nat) :
    (config.datatype = DataType.INT16 →
      parseValue (w :: rest) config = (int16OfUInt16 w : ℚ)) ∧
    (config.datatype = DataType.UINT16 →
      parseValue (w :: rest) config = (w : ℚ)) := by
  constructor <;> intro h <;> simp [parseValue, h]

/-- C4 witness: the amended statement applied at the `BA` configuration and
word `0x1234`. -/
theorem c4_16bit_byteorder_ignored_witness :
    ({ datatype := DataType.UINT16, byteOrder := ByteOrder.BA } :
        DataPointConfig).datatype = DataType.UINT16 ∧
    parseValue [0x1234]
        { datatype := DataType.UINT16, byteOrder := ByteOrder.BA } = (0x1234 : ℚ) :=
  ⟨rfl, (c4_16bit_byteorder_ignored
      { datatype := DataType.UINT16, byteOrder := ByteOrder.BA } 0x1234 []).2 rfl⟩

/-! ### Claim C3 — out-of-range values and publication -/

/-- At register value 20 the per-point body publishes nothing. -/
theorem c3_point_eval_20 : processRangePoint
    { startAddress := 0, quantity := 1, functionCode := 3, pointIds := ["p"] }
    [20] [("p", c3Point)] "p" = none := by
  norm_num [processRangePoint, lookupPoint, c3Point, getPointSize,
    parseData, parseValue, validateValue]
  simp

/-- C3 counterexample: at register value 20 (outside the active window
`[0, 10]`), the point fails validation and the worker publishes nothing — the
out-of-range value suppresses publication instead of being published with an
out-of-range mark. -/
theorem c3_out_of_range_not_published :
    validateValue 20 c3Point = false ∧
    (parseData [("p", c3Point)] "p" [20]).isValid = false ∧
    processRangeData c3Range [20] [("p", c3Point)] = [] := by
  refine ⟨?_, ?_, ?_⟩
  · norm_num [validateValue, c3Point]
  · norm_num [parseData, lookupPoint, c3Point, parseValue, validateValue]
    simp
  · simp [processRangeData, c3Range, List.filterMap, c3_point_eval_20]

/-- Every value `processRangePoint` passes to `writeDataToRedis` carries
`isValid = true`. -/
theorem processRangePoint_isValid (range : AddressRange) (values : List Nat)
    (points : List (String × DataPointConfig)) (pointId : String)
    (pv : DataPointValue)
    (h : processRangePoint range values points pointId = some pv) :
    pv.isValid = true := by
  unfold processRangePoint at h
  cases hlk : lookupPoint points pointId with
  | none => rw [hlk] at h; exact absurd h (by simp)
  | some config =>
      rw [hlk] at h
      cases hpc : config.pointConfig with
      | none => simp [hpc] at h
      | some modbus =>
          simp only [hpc] at h
          split at h
          · exact absurd h (by simp)
          · split at h
            · exact absurd h (by simp)
            · split at h
              · rename_i hvalid
                cases h
                exact hvalid
              · exact absurd h (by simp)

/-- C3 (amended): the worker publishes only values that pass validation —
a decoded-and-scaled value outside the active window has `isValid = false`,
is logged, and is not written to the bus, so everything that reaches the bus
has `isValid = true`. -/
theorem c3_only_valid_published (range : AddressRange) (values : List Nat)
    (points : List (String × DataPointConfig)) :
    ∀ pv ∈ processRangeData range values points, pv.isValid = true := by
  intro pv hpv
  unfold processRangeData at hpv
  split at hpv
  · exact absurd hpv (by simp)
  · rw [List.mem_filterMap] at hpv
    obtain ⟨pid, _, hf⟩ := hpv
    exact processRangePoint_isValid range values points pid pv hf

/-- At register value 5 the per-point body publishes the decoded value. -/
theorem c3_point_eval_5 : processRangePoint
    { startAddress := 0, quantity := 1, functionCode := 3, pointIds := ["p"] }
    [5] [("p", c3Point)] "p" =
    some { id := "p", value := 5, unit := "", timestamp := "", isValid := true } := by
  norm_num [processRangePoint, lookupPoint, c3Point, getPointSize,
    parseData, parseValue, validateValue]
  simp

/-- Concrete evaluation: the in-window register value 5 for `c3Point` is
published. -/
theorem c3_publishes_in_window :
    processRangeData c3Range [5] [("p", c3Point)] =
      [{ id := "p", value := 5, unit := "", timestamp := "", isValid := true }] := by
  simp [processRangeData, c3Range, List.filterMap, c3_point_eval_5]

/-- C3 witness: an in-window value (register 5 for `c3Point`) is published and
carries `isValid = true`. -/
theorem c3_only_valid_published_witness :
    ({ id := "p", value := 5, unit := "", timestamp := "", isValid := true } :
        DataPointValue) ∈ processRangeData c3Range [5] [("p", c3Point)] ∧
    ({ id := "p", value := 5, unit := "", timestamp := "", isValid := true } :
        DataPointValue).isValid = true :=
  ⟨by rw [c3_publishes_in_window]; exact List.mem_singleton_self _,
    c3_only_valid_published c3Range [5] [("p", c3Point)] _
      (by rw [c3_publishes_in_window]; exact List.mem_singleton_self _)⟩

/-! ### Register-image lemmas (shared by C5, C6, C7) -/

/-- `mapSet` followed by `mapFind?` behaves as a pointwise update. -/
theorem mapFind_mapSet (m : List (Nat × Nat)) (k v a : Nat) :
    mapFind? (mapSet m k v) a = if k = a then some v else mapFind? m a := by
  induction m with
  | nil =>
      simp only [mapSet, mapFind?]
  | cons kv rest ih =>
      obtain ⟨k0, v0⟩ := kv
      by_cases h0 : k0 = k
      · subst h0
        simp only [mapSet, if_pos rfl, mapFind?]
        by_cases ha : k0 = a
        · subst ha; simp
        · simp [ha]
      · simp only [mapSet, if_neg h0, mapFind?, ih]
        by_cases ha : k0 = a
        · subst ha
          have hk : ¬ (k = k0) := fun hh => h0 hh.symm
          simp [hk]
        · simp [ha]

/-- `setMapLoop` followed by `mapFind?`: addresses inside the written window
read back the written values, all others are untouched. -/
theorem mapFind_setMapLoop (values : List Nat) :
    ∀ (hr : List (Nat × Nat)) (start a : Nat),
      mapFind? (setMapLoop hr start values) a =
        if start ≤ a ∧ a < start + values.length then
          some (values.getD (a - start) 0)
        else mapFind? hr a := by
  induction values with
  | nil =>
      intro hr start a
      simp only [setMapLoop, List.length_nil, Nat.add_zero]
      rw [if_neg (fun hc => absurd hc.2 (Nat.not_lt.mpr hc.1))]
  | cons v rest ih =>
      intro hr start a
      simp only [setMapLoop, List.length_cons]
      rw [ih, mapFind_mapSet]
      by_cases hmem : start ≤ a ∧ a < start + (rest.length + 1)
      · rw [if_pos hmem]
        by_cases ha : a = start
        · subst ha
          rw [if_neg (by omega), if_pos rfl]
          simp
        · rw [if_pos (by omega)]
          have hshift : a - start = (a - (start + 1)) + 1 := by omega
          rw [hshift, List.getD_cons_succ]
      · rw [if_neg hmem, if_neg (by omega), if_neg (by omega)]

/-- After `setHoldingRegisters`, every address of the written window reads back
its written value (the map shadows the mapping). -/
theorem aux_setHoldingRegisters (img : SlaveImage) (start a : Nat)
    (values : List Nat) (h : start ≤ a ∧ a < start + values.length) :
    getHoldingRegisterAux (setHoldingRegisters img start values).1 a =
      some (values.getD (a - start) 0) := by
  unfold setHoldingRegisters getHoldingRegisterAux
  simp only
  rw [mapFind_setMapLoop, if_pos h]

/-- `getHoldingRegisters` returns `(values, true)` whenever every address in
the window resolves to the corresponding value. -/
theorem getHoldingRegisters_readback (img : SlaveImage) :
    ∀ (values : List Nat) (start : Nat),
      (∀ a, start ≤ a → a < start + values.length →
        getHoldingRegisterAux img a = some (values.getD (a - start) 0)) →
      getHoldingRegisters img start values.length = (values, true) := by
  intro values
  induction values with
  | nil => intro start _; rfl
  | cons v rest ih =>
      intro start h
      simp only [List.length_cons] at h
      show getHoldingRegisters img start (rest.length + 1) = _
      simp only [getHoldingRegisters]
      rw [ih (start + 1) ?_]
      · have hv := h start le_rfl (by omega)
        simp only [Nat.sub_self, List.getD_cons_zero] at hv
        rw [hv]
      · intro a ha1 ha2
        have hva := h a (by omega) (by omega)
        have hshift : a - start = (a - (start + 1)) + 1 := by omega
        rw [hva, hshift, List.getD_cons_succ]

/-! ### Claim C7 — set-then-get round trip -/

/-- C7: for every image state, start address and non-empty value list, writing
the values into holding addresses `[start, start + n)` (the FC 16 / FC 6 path,
`setHoldingRegisters`) and immediately reading the same addresses back (the
FC 3 path, `getHoldingRegisters`) succeeds (`allFound = true`) and returns
exactly the written values. -/
theorem c7_set_then_get (img : SlaveImage) (startAddress : Nat)
    (values : List Nat) (_hne : values ≠ []) :
    getHoldingRegisters (setHoldingRegisters img startAddress values).1
      startAddress values.length = (values, true) := by
  apply getHoldingRegisters_readback
  intro a h1 h2
  exact aux_setHoldingRegisters img startAddress a values ⟨h1, h2⟩

/-- C7 witness: writing `[11, 22, 33]` at address 10 into the empty image and
reading back returns exactly those values (spec §8 scenario 2). -/
theorem c7_set_then_get_witness :
    ([11, 22, 33] : List Nat) ≠ [] ∧
    getHoldingRegisters (setHoldingRegisters ⟨[], none⟩ 10 [11, 22, 33]).1 10 3 =
      ([11, 22, 33], true) :=
  ⟨by decide, c7_set_then_get ⟨[], none⟩ 10 [11, 22, 33] (by decide)⟩

/-! ### Claim C6 — FC 6 write single register -/

/-- After `setHoldingRegister`, the written address reads back the written
value. -/
theorem aux_setHoldingRegister (img : SlaveImage) (a v : Nat) :
    getHoldingRegisterAux (setHoldingRegister img a v).1 a = some v := by
  unfold setHoldingRegister getHoldingRegisterAux
  cases hm : img.mapping with
  | none => simp [mapFind_mapSet]
  | some m =>
      by_cases h : a < m.nb_registers <;> simp [h, mapFind_mapSet]

/-- `setHoldingRegister` always reports success — the illegal-data-address
branch of the FC 6 handler is unreachable. -/
theorem setHoldingRegister_always_true (img : SlaveImage) (a v : Nat) :
    (setHoldingRegister img a v).2 = true := by
  unfold setHoldingRegister
  cases img.mapping with
  | none => simp
  | some m => by_cases h : a < m.nb_registers <;> simp [h]

/-- C6 counterexample: on the empty image, address 100 does not exist, yet the
FC 6 dispatcher accepts the write `holding[100] := 42`: it replies with the
5-byte echo (function code 6, not the exception `0x86 0x02` the claim
requires) and grows the image. -/
theorem c6_nonexistent_address_accepted :
    getHoldingRegisterAux ⟨[], none⟩ 100 = none ∧
    processWriteSingleRegister ⟨[], none⟩ [6, 0, 100, 0, 42] 0 =
      (⟨[(100, 42)], none⟩, [(100, 42)], [6, 0, 100, 0, 42], 5) := by
  decide

/-- The FC 6 handler always takes its success path: it updates the image via
`setHoldingRegister`, fires one register-write callback with the parsed
address and value, and echoes the request with response length `offset + 5`. -/
theorem processWriteSingleRegister_eq (img : SlaveImage) (request : List Nat)
    (offset : Nat) :
    processWriteSingleRegister img request offset =
      ((setHoldingRegister img
          ((request.getD (offset + 1) 0) <<< 8 ||| request.getD (offset + 2) 0)
          ((request.getD (offset + 3) 0) <<< 8 ||| request.getD (offset + 4) 0)).1,
        [(((request.getD (offset + 1) 0) <<< 8 ||| request.getD (offset + 2) 0),
          ((request.getD (offset + 3) 0) <<< 8 ||| request.getD (offset + 4) 0))],
        request, offset + 5) := by
  simp only [processWriteSingleRegister]
  rw [setHoldingRegister_always_true]
  simp

/-- C6 (amended): the FC 6 dispatcher performs no address-existence check —
`setHoldingRegister` always succeeds (out-of-image addresses are only logged),
so no illegal-data-address exception is ever produced; the dispatcher always
sets the holding register (the parsed address then reads back the parsed
value), fires the register-write callback once, and echoes the request with
response length `offset + 5` (the five request bytes). -/
theorem c6_fc6_always_accepts (img : SlaveImage) (request : List Nat)
    (offset : Nat) :
    (setHoldingRegister img
        ((request.getD (offset + 1) 0) <<< 8 ||| request.getD (offset + 2) 0)
        ((request.getD (offset + 3) 0) <<< 8 ||| request.getD (offset + 4) 0)).2
      = true ∧
    processWriteSingleRegister img request offset =
      ((setHoldingRegister img
          ((request.getD (offset + 1) 0) <<< 8 ||| request.getD (offset + 2) 0)
          ((request.getD (offset + 3) 0) <<< 8 ||| request.getD (offset + 4) 0)).1,
        [(((request.getD (offset + 1) 0) <<< 8 ||| request.getD (offset + 2) 0),
          ((request.getD (offset + 3) 0) <<< 8 ||| request.getD (offset + 4) 0))],
        request, offset + 5) ∧
    getHoldingRegisterAux (processWriteSingleRegister img request offset).1
        ((request.getD (offset + 1) 0) <<< 8 ||| request.getD (offset + 2) 0) =
      some ((request.getD (offset + 3) 0) <<< 8 ||| request.getD (offset + 4) 0) := by
  refine ⟨setHoldingRegister_always_true img _ _,
    processWriteSingleRegister_eq img request offset, ?_⟩
  rw [processWriteSingleRegister_eq]
  exact aux_setHoldingRegister img _ _

/-! ### Claim C5 — FC 3 read holding registers -/

/-- Writing at one index leaves reads at other indices unchanged. -/
theorem getD_set_ne (l : List Nat) {i j : Nat} (x d : Nat) (h : i ≠ j) :
    (l.set i x).getD j d = l.getD j d := by
  simp [List.getD, List.getElem?_set_ne h]

/-- Writing inside the buffer reads back the written byte. -/
theorem getD_set_self (l : List Nat) {i : Nat} (x d : Nat) (h : i < l.length) :
    (l.set i x).getD i d = x := by
  simp [List.getD, List.getElem?_set_self, h]

/-- `packRegisters` never changes the buffer length. -/
theorem packRegisters_length (values : List Nat) :
    ∀ (buf : List Nat) (pos : Nat),
      (packRegisters buf pos values).length = buf.length := by
  induction values with
  | nil => intro buf pos; rfl
  | cons v rest ih =>
      intro buf pos
      simp [packRegisters, ih]

/-- `packRegisters` writes only at positions `≥ pos`. -/
theorem packRegisters_getD_lt (values : List Nat) :
    ∀ (buf : List Nat) (pos j : Nat), j < pos →
      (packRegisters buf pos values).getD j 0 = buf.getD j 0 := by
  induction values with
  | nil => intro buf pos j _; rfl
  | cons v rest ih =>
      intro buf pos j hj
      simp only [packRegisters]
      rw [ih _ (pos + 2) j (by omega)]
      rw [getD_set_ne _ _ _ (by omega), getD_set_ne _ _ _ (by omega)]

/-- Reading back the packed registers: value `i` appears big-endian at
positions `pos + 2 i` and `pos + 2 i + 1`. -/
theorem packRegisters_getD (values : List Nat) :
    ∀ (buf : List Nat) (pos i : Nat), i < values.length →
      pos + 2 * values.length ≤ buf.length →
      (packRegisters buf pos values).getD (pos + 2 * i) 0 =
        ((values.getD i 0) >>> 8) &&& 0xFF ∧
      (packRegisters buf pos values).getD (pos + 2 * i + 1) 0 =
        (values.getD i 0) &&& 0xFF := by
  induction values with
  | nil =>
      intro buf pos i hi
      exact absurd hi (by simp)
  | cons v rest ih =>
      intro buf pos i hi hfit
      simp only [List.length_cons] at hfit
      match i with
      | 0 =>
          simp only [packRegisters, Nat.mul_zero, Nat.add_zero, List.getD_cons_zero]
          constructor
          · rw [packRegisters_getD_lt rest _ (pos + 2) pos (by omega)]
            rw [getD_set_ne _ _ _ (by omega)]
            exact getD_set_self _ _ _ (by omega)
          · rw [packRegisters_getD_lt rest _ (pos + 2) (pos + 1) (by omega)]
            exact getD_set_self _ _ _ (by simp; omega)
      | i + 1 =>
          simp only [List.length_cons] at hi
          simp only [packRegisters, List.getD_cons_succ]
          have e1 : pos + 2 * (i + 1) = (pos + 2) + 2 * i := by omega
          rw [e1]
          exact ih _ (pos + 2) i (by omega) (by simp; omega)

/-- The values vector returned by `getHoldingRegisters` has exactly `quantity`
entries. -/
theorem getHoldingRegisters_length (img : SlaveImage) (q : Nat) :
    ∀ s, (getHoldingRegisters img s q).1.length = q := by
  induction q with
  | zero => intro s; rfl
  | succ n ih =>
      intro s
      simp only [getHoldingRegisters]
      cases hx : getHoldingRegisterAux img s <;> simp [ih (s + 1)]

/-- `allFound` is `true` exactly when every address of the window exists in
the image. -/
theorem getHoldingRegisters_found (img : SlaveImage) (q : Nat) :
    ∀ s, (getHoldingRegisters img s q).2 = true ↔
      ∀ i < q, getHoldingRegisterAux img (s + i) ≠ none := by
  induction q with
  | zero => intro s; simp [getHoldingRegisters]
  | succ n ih =>
      intro s
      simp only [getHoldingRegisters]
      cases hx : getHoldingRegisterAux img s with
      | none =>
          simp only []
          constructor
          · intro h; exact absurd h (by simp)
          · intro h
            have h0 := h 0 (by omega)
            rw [Nat.add_zero] at h0
            exact absurd hx h0
      | some v =>
          simp only []
          rw [ih (s + 1)]
          constructor
          · intro h i hi
            match i with
            | 0 =>
                rw [Nat.add_zero, hx]
                simp
            | i + 1 =>
                have hh := h i (by omega)
                rwa [show s + 1 + i = s + (i + 1) by omega] at hh
          · intro h i hi
            have hh := h (i + 1) (by omega)
            rwa [show s + (i + 1) = s + 1 + i by omega] at hh

/-- Entry `i` of the values vector is the image word at `s + i` (0 for missing
addresses, from `values.resize(quantity, 0)`). -/
theorem getHoldingRegisters_getD (img : SlaveImage) (q : Nat) :
    ∀ s i, i < q →
      (getHoldingRegisters img s q).1.getD i 0 =
        (getHoldingRegisterAux img (s + i)).getD 0 := by
  induction q with
  | zero => intro s i hi; exact absurd hi (by omega)
  | succ n ih =>
      intro s i hi
      simp only [getHoldingRegisters]
      cases hx : getHoldingRegisterAux img s with
      | none =>
          simp only []
          match i with
          | 0 => simp [hx]
          | i + 1 =>
              simp only [List.getD_cons_succ]
              rw [ih (s + 1) i (by omega), show s + 1 + i = s + (i + 1) by omega]
      | some v =>
          simp only []
          match i with
          | 0 => simp [hx]
          | i + 1 =>
              simp only [List.getD_cons_succ]
              rw [ih (s + 1) i (by omega), show s + 1 + i = s + (i + 1) by omega]

/-- C5: behaviour of the FC 3 handler on a request buffer of length ≥ 2.
If the parsed quantity is outside `[1, 125]` the reply is the two-byte
exception `[fc | 0x80, 0x03]`; otherwise, if some address of
`[start, start + quantity)` does not exist in the register image, the reply is
the two-byte exception `[fc | 0x80, 0x02]`; otherwise the reply is a normal
response of length `offset + 2 + 2·quantity` whose byte count equals
`2·quantity` and whose register values are emitted big-endian. -/
theorem c5_fc3_dispatcher (img : SlaveImage) (request : List Nat)
    (offset : Nat) (hlen : 2 ≤ request.length) :
    ((parsedQuantity request offset < 1 ∨ parsedQuantity request offset > 125) →
      (processReadHoldingRegisters img request offset).2 = 2 ∧
      (processReadHoldingRegisters img request offset).1.getD 0 0 =
        (request.getD offset 0) ||| 0x80 ∧
      (processReadHoldingRegisters img request offset).1.getD 1 0 = 0x03) ∧
    (1 ≤ parsedQuantity request offset → parsedQuantity request offset ≤ 125 →
      (∃ i < parsedQuantity request offset,
        getHoldingRegisterAux img (parsedAddress request offset + i) = none) →
      (processReadHoldingRegisters img request offset).2 = 2 ∧
      (processReadHoldingRegisters img request offset).1.getD 0 0 =
        (request.getD offset 0) ||| 0x80 ∧
      (processReadHoldingRegisters img request offset).1.getD 1 0 = 0x02) ∧
    (1 ≤ parsedQuantity request offset → parsedQuantity request offset ≤ 125 →
      (∀ i < parsedQuantity request offset,
        getHoldingRegisterAux img (parsedAddress request offset + i) ≠ none) →
      offset + 2 + parsedQuantity request offset * 2 ≤ request.length →
      (processReadHoldingRegisters img request offset).2 =
        offset + 2 + parsedQuantity request offset * 2 ∧
      (processReadHoldingRegisters img request offset).1.length = request.length ∧
      (processReadHoldingRegisters img request offset).1.getD (offset + 1) 0 =
        parsedQuantity request offset * 2 ∧
      (∀ i < parsedQuantity request offset,
        (processReadHoldingRegisters img request offset).1.getD
            (offset + 2 + 2 * i) 0 =
          ((getHoldingRegisterAux img (parsedAddress request offset + i)).getD 0
            >>> 8) &&& 0xFF ∧
        (processReadHoldingRegisters img request offset).1.getD
            (offset + 2 + 2 * i + 1) 0 =
          (getHoldingRegisterAux img (parsedAddress request offset + i)).getD 0
            &&& 0xFF)) := by
  simp only [parsedQuantity, parsedAddress]
  set A := (request.getD (offset + 1) 0) <<< 8 ||| request.getD (offset + 2) 0
    with hA
  set Q := (request.getD (offset + 3) 0) <<< 8 ||| request.getD (offset + 4) 0
    with hQ
  refine ⟨?_, ?_, ?_⟩
  · intro hbad
    simp only [processReadHoldingRegisters, buildExceptionResponse, ← hA, ← hQ]
    rw [if_pos hbad]
    refine ⟨rfl, ?_, ?_⟩
    · rw [getD_set_ne _ _ _ (by omega)]
      exact getD_set_self _ _ _ (by omega)
    · exact getD_set_self _ _ _ (by simp; omega)
  · intro h1 h2 hmiss
    simp only [processReadHoldingRegisters, buildExceptionResponse, ← hA, ← hQ]
    rw [if_neg (by omega)]
    have hres : (getHoldingRegisters img A Q).2 = false := by
      rcases hmiss with ⟨i, hi, hnone⟩
      cases hcase : (getHoldingRegisters img A Q).2
      · rfl
      · exact absurd hnone (((getHoldingRegisters_found img Q A).mp hcase) i hi)
    rw [hres, if_pos (by simp)]
    refine ⟨rfl, ?_, ?_⟩
    · rw [getD_set_ne _ _ _ (by omega)]
      exact getD_set_self _ _ _ (by omega)
    · exact getD_set_self _ _ _ (by simp; omega)
  · intro h1 h2 hall hfit
    simp only [processReadHoldingRegisters, ← hA, ← hQ]
    rw [if_neg (by omega)]
    have hres : (getHoldingRegisters img A Q).2 = true :=
      (getHoldingRegisters_found img Q A).mpr hall
    rw [hres, if_neg (by simp)]
    have hvlen : (getHoldingRegisters img A Q).1.length = Q :=
      getHoldingRegisters_length img Q A
    have hbuflen : (request.set (offset + 1) (Q * 2)).length = request.length := by
      simp
    refine ⟨rfl, ?_, ?_, ?_⟩
    · rw [packRegisters_length, hbuflen]
    · rw [packRegisters_getD_lt _ _ (offset + 2) (offset + 1) (by omega)]
      exact getD_set_self _ _ _ (by omega)
    · intro i hi
      have hpack := packRegisters_getD (getHoldingRegisters img A Q).1
        (request.set (offset + 1) (Q * 2)) (offset + 2) i
        (by rw [hvlen]; exact hi) (by rw [hvlen, hbuflen]; omega)
      have hval := getHoldingRegisters_getD img Q A i hi
      constructor
      · rw [show offset + 2 + 2 * i = (offset + 2) + 2 * i by omega]
        rw [hpack.1, hval]
      · rw [show offset + 2 + 2 * i + 1 = (offset + 2) + 2 * i + 1 by omega]
        rw [hpack.2, hval]

/-- C5 witness: on the image `holding[100] = 0x1234` (spec §8 scenario 1), the
FC 3 request `03 00 64 00 01` with two spare buffer bytes yields the normal
response with byte count 2 and the register emitted big-endian. -/
theorem c5_fc3_dispatcher_witness :
    2 ≤ ([3, 0, 100, 0, 1, 0, 0] : List Nat).length ∧
    ((processReadHoldingRegisters ⟨[(100, 0x1234)], none⟩
        [3, 0, 100, 0, 1, 0, 0] 0).2 =
      0 + 2 + parsedQuantity [3, 0, 100, 0, 1, 0, 0] 0 * 2 ∧
    (processReadHoldingRegisters ⟨[(100, 0x1234)], none⟩
        [3, 0, 100, 0, 1, 0, 0] 0).1.length =
      ([3, 0, 100, 0, 1, 0, 0] : List Nat).length ∧
    (processReadHoldingRegisters ⟨[(100, 0x1234)], none⟩
        [3, 0, 100, 0, 1, 0, 0] 0).1.getD (0 + 1) 0 =
      parsedQuantity [3, 0, 100, 0, 1, 0, 0] 0 * 2 ∧
    (∀ i < parsedQuantity [3, 0, 100, 0, 1, 0, 0] 0,
      (processReadHoldingRegisters ⟨[(100, 0x1234)], none⟩
          [3, 0, 100, 0, 1, 0, 0] 0).1.getD (0 + 2 + 2 * i) 0 =
        ((getHoldingRegisterAux ⟨[(100, 0x1234)], none⟩
            (parsedAddress [3, 0, 100, 0, 1, 0, 0] 0 + i)).getD 0 >>> 8)
          &&& 0xFF ∧
      (processReadHoldingRegisters ⟨[(100, 0x1234)], none⟩
          [3, 0, 100, 0, 1, 0, 0] 0).1.getD (0 + 2 + 2 * i + 1) 0 =
        (getHoldingRegisterAux ⟨[(100, 0x1234)], none⟩
            (parsedAddress [3, 0, 100, 0, 1, 0, 0] 0 + i)).getD 0
          &&& 0xFF)) :=
  ⟨by decide,
    (c5_fc3_dispatcher ⟨[(100, 0x1234)], none⟩ [3, 0, 100, 0, 1, 0, 0] 0
      (by decide)).2.2 (by decide) (by decide) (by decide) (by decide)⟩

/-! ### Claim C10 — `parseData` totality and bounds -/

/-- If two word vectors agree on their first two elements, every `getD` read
`parseData` performs agrees. -/
theorem getD_of_take_two {l l₂ : List Nat} (h : l.take 2 = l₂.take 2) :
    l.getD 0 0 = l₂.getD 0 0 ∧ l.getD 1 0 = l₂.getD 1 0 := by
  match l, l₂ with
  | [], [] => exact ⟨rfl, rfl⟩
  | [], _ :: _ => simp at h
  | _ :: _, [] => simp at h
  | [a], [b] => simp_all [List.take]
  | [a], b :: c :: t => simp_all [List.take]
  | a :: c :: t, [b] => simp_all [List.take]
  | a :: b :: t, c :: d :: t₂ => simp_all [List.take]

/-- C10: `parseData` is total and reads at most the first two register words:
an unknown id yields `isValid = false`; a word vector shorter than the point's
required size (2 for `int32`/`uint32`/`float32`, else 1) yields
`isValid = false`; and the result depends only on the first two words of the
vector (so no access beyond the data ever influences the outcome). -/
theorem c10_parseData_safe (dataPoints : List (String × DataPointConfig))
    (id : String) (rawData : List Nat) :
    (lookupPoint dataPoints id = none →
      (parseData dataPoints id rawData).isValid = false) ∧
    (∀ config, lookupPoint dataPoints id = some config →
      rawData.length <
        (if config.datatype = DataType.INT32 ∨ config.datatype = DataType.UINT32
            ∨ config.datatype = DataType.FLOAT32 then 2 else 1) →
      (parseData dataPoints id rawData).isValid = false) ∧
    (∀ rawData₂ : List Nat, rawData.take 2 = rawData₂.take 2 →
      parseData dataPoints id rawData = parseData dataPoints id rawData₂) := by
  refine ⟨fun hnone => ?_, fun config hsome hshort => ?_, fun rawData₂ htake => ?_⟩
  · simp [parseData, hnone]
  · simp only [parseData, hsome]
    rw [if_pos hshort]
  · have hget := getD_of_take_two htake
    have hlen : min 2 rawData.length = min 2 rawData₂.length := by
      have := congrArg List.length htake
      simpa [List.length_take] using this
    cases hl : lookupPoint dataPoints id with
    | none => simp [parseData, hl]
    | some config =>
      have hpv : parseValue rawData config = parseValue rawData₂ config := by
        unfold parseValue
        rw [hget.1, hget.2]
      simp only [parseData, hl]
      by_cases hdt : config.datatype = DataType.INT32 ∨
          config.datatype = DataType.UINT32 ∨ config.datatype = DataType.FLOAT32
      · rw [if_pos hdt]
        by_cases hfit : rawData.length < 2
        · have hfit₂ : rawData₂.length < 2 := by omega
          rw [if_pos hfit, if_pos hfit₂]
        · have hfit₂ : ¬ rawData₂.length < 2 := by omega
          rw [if_neg hfit, if_neg hfit₂, hpv]
      · rw [if_neg hdt]
        by_cases hfit : rawData.length < 1
        · have hfit₂ : rawData₂.length < 1 := by omega
          rw [if_pos hfit, if_pos hfit₂]
        · have hfit₂ : ¬ rawData₂.length < 1 := by omega
          rw [if_neg hfit, if_neg hfit₂, hpv]

/-- C10 witness: an unknown id on an empty point table yields an invalid
result. -/
theorem c10_parseData_safe_witness :
    lookupPoint [] "x" = none ∧ (parseData [] "x" []).isValid = false :=
  ⟨rfl, (c10_parseData_safe [] "x" []).1 rfl⟩


/-! ### Claim C8 — CRC round trip and single-bit-error detection -/

theorem xor_shiftRight (a b : Nat) : (a ^^^ b) >>> 1 = (a >>> 1) ^^^ (b >>> 1) := by
  apply Nat.eq_of_testBit_eq
  intro i
  simp [Nat.testBit_shiftRight, Nat.testBit_xor]

theorem xor_mod_two (a b : Nat) : (a ^^^ b) % 2 = (a % 2) ^^^ (b % 2) := by
  have h := Nat.testBit_xor a b 0
  rw [Nat.testBit_zero, Nat.testBit_zero, Nat.testBit_zero] at h
  rcases Nat.mod_two_eq_zero_or_one a with ha | ha <;>
    rcases Nat.mod_two_eq_zero_or_one b with hb | hb <;>
      rcases Nat.mod_two_eq_zero_or_one (a ^^^ b) with hx | hx <;>
        simp [ha, hb, hx] at h ⊢

theorem xor_xor_cancel (x y p : Nat) : (x ^^^ p) ^^^ (y ^^^ p) = x ^^^ y := by
  rw [Nat.xor_assoc, Nat.xor_comm p (y ^^^ p), Nat.xor_assoc, Nat.xor_self,
    Nat.xor_zero]

theorem xor_cancel_left (p x y : Nat) : (p ^^^ x) ^^^ (p ^^^ y) = x ^^^ y := by
  rw [Nat.xor_comm p x, Nat.xor_comm p y, xor_xor_cancel]

theorem xor_xor_self (x e : Nat) : (x ^^^ e) ^^^ x = e := by
  rw [Nat.xor_comm x e, Nat.xor_assoc, Nat.xor_self, Nat.xor_zero]

theorem crcRound_linear (a b : Nat) :
    crcRound (a ^^^ b) = crcRound a ^^^ crcRound b := by
  unfold crcRound
  have hx := xor_mod_two a b
  rcases Nat.mod_two_eq_zero_or_one a with ha | ha <;>
    rcases Nat.mod_two_eq_zero_or_one b with hb | hb <;>
      rw [ha, hb] at hx <;> simp only [Nat.xor_self, Nat.zero_xor, Nat.xor_zero] at hx
  · rw [if_neg (by omega), if_neg (by omega), if_neg (by omega), xor_shiftRight]
  · rw [if_pos (by omega), if_neg (by omega), if_pos (by omega), xor_shiftRight]
    rw [Nat.xor_assoc]
  · rw [if_pos (by omega), if_pos (by omega), if_neg (by omega), xor_shiftRight]
    rw [Nat.xor_comm (a >>> 1 ^^^ 40961) (b >>> 1), ← Nat.xor_assoc,
      Nat.xor_comm (b >>> 1) (a >>> 1)]
  · rw [if_neg (by omega), if_pos (by omega), if_pos (by omega), xor_shiftRight,
      xor_xor_cancel]

theorem crcRound8_linear (a b : Nat) :
    crcRound8 (a ^^^ b) = crcRound8 a ^^^ crcRound8 b := by
  unfold crcRound8
  rw [crcRound_linear, crcRound_linear, crcRound_linear, crcRound_linear,
    crcRound_linear, crcRound_linear, crcRound_linear, crcRound_linear]

theorem crcByte_sameByte (c1 c2 b : Nat) :
    crcByte c1 b ^^^ crcByte c2 b = crcRound8 (c1 ^^^ c2) := by
  unfold crcByte
  rw [← crcRound8_linear]
  congr 1
  rw [Nat.xor_assoc, Nat.xor_comm b (c2 ^^^ b), Nat.xor_assoc, Nat.xor_self,
    Nat.xor_zero]

theorem foldl_crcByte_xor (m : List Nat) :
    ∀ c1 c2, (m.foldl crcByte c1) ^^^ (m.foldl crcByte c2) =
      crcIter m.length (c1 ^^^ c2) := by
  induction m with
  | nil => intro c1 c2; rfl
  | cons b rest ih =>
      intro c1 c2
      simp only [List.foldl_cons, List.length_cons]
      rw [ih (crcByte c1 b) (crcByte c2 b)]
      show crcIter rest.length (crcByte c1 b ^^^ crcByte c2 b) = crcIter (rest.length + 1) (c1 ^^^ c2)
      rw [crcByte_sameByte]
      rfl

theorem crcRound_lt (c : Nat) (h : c < 2 ^ 16) : crcRound c < 2 ^ 16 := by
  unfold crcRound
  have h1 : c >>> 1 < 2 ^ 15 := by
    rw [Nat.shiftRight_eq_div_pow]
    omega
  split
  · exact Nat.xor_lt_two_pow (by omega) (by norm_num)
  · omega

theorem crcRound_ne_zero (c : Nat) (hlt : c < 2 ^ 16) (h : c ≠ 0) :
    crcRound c ≠ 0 := by
  unfold crcRound
  have h1 : c >>> 1 < 2 ^ 15 := by
    rw [Nat.shiftRight_eq_div_pow]
    omega
  rcases Nat.mod_two_eq_zero_or_one c with hp | hp
  · rw [if_neg (by omega)]
    rw [Nat.shiftRight_eq_div_pow]
    omega
  · rw [if_pos hp]
    intro hz
    rw [Nat.xor_eq_zero] at hz
    omega

theorem crcRound8_lt (c : Nat) (h : c < 2 ^ 16) : crcRound8 c < 2 ^ 16 := by
  unfold crcRound8
  exact crcRound_lt _ (crcRound_lt _ (crcRound_lt _ (crcRound_lt _ (crcRound_lt _
    (crcRound_lt _ (crcRound_lt _ (crcRound_lt _ h)))))))

theorem crcRound8_ne_zero (c : Nat) (hlt : c < 2 ^ 16) (h : c ≠ 0) :
    crcRound8 c ≠ 0 := by
  unfold crcRound8
  have s1 := crcRound_lt c hlt
  have n1 := crcRound_ne_zero c hlt h
  have s2 := crcRound_lt _ s1
  have n2 := crcRound_ne_zero _ s1 n1
  have s3 := crcRound_lt _ s2
  have n3 := crcRound_ne_zero _ s2 n2
  have s4 := crcRound_lt _ s3
  have n4 := crcRound_ne_zero _ s3 n3
  have s5 := crcRound_lt _ s4
  have n5 := crcRound_ne_zero _ s4 n4
  have s6 := crcRound_lt _ s5
  have n6 := crcRound_ne_zero _ s5 n5
  have s7 := crcRound_lt _ s6
  have n7 := crcRound_ne_zero _ s6 n6
  exact crcRound_ne_zero _ s7 n7

theorem crcIter_ne_zero (n : Nat) :
    ∀ c, c < 2 ^ 16 → c ≠ 0 → crcIter n c ≠ 0 := by
  induction n with
  | zero => intro c _ h; exact h
  | succ m ih =>
      intro c hlt h
      exact ih _ (crcRound8_lt c hlt) (crcRound8_ne_zero c hlt h)

theorem foldl_crcByte_lt (m : List Nat) :
    ∀ c, c < 2 ^ 16 → (∀ b ∈ m, b < 2 ^ 16) →
      m.foldl crcByte c < 2 ^ 16 := by
  induction m with
  | nil => intro c hc _; exact hc
  | cons b rest ih =>
      intro c hc hb
      simp only [List.foldl_cons]
      apply ih
      · exact crcRound8_lt _ (Nat.xor_lt_two_pow hc (hb b (by simp)))
      · intro x hx; exact hb x (by simp [hx])

theorem crc_flip_ne (m : List Nat) :
    ∀ c i e, i < m.length → 0 < e → e < 2 ^ 16 → c < 2 ^ 16 →
      (∀ b ∈ m, b < 2 ^ 16) →
      (m.set i ((m.getD i 0) ^^^ e)).foldl crcByte c ≠ m.foldl crcByte c := by
  induction m with
  | nil => intro c i e hi _ _ _ _; exact absurd hi (by simp)
  | cons b rest ih =>
      intro c i e hi he helt hc hb
      match i with
      | 0 =>
          simp only [List.set_cons_zero, List.getD_cons_zero, List.foldl_cons]
          intro heq
          have hx := foldl_crcByte_xor rest (crcByte c (b ^^^ e)) (crcByte c b)
          rw [heq, Nat.xor_self] at hx
          have : crcByte c (b ^^^ e) ^^^ crcByte c b = crcRound8 e := by
            unfold crcByte
            rw [← crcRound8_linear]
            congr 1
            rw [xor_cancel_left, xor_xor_self]
          rw [this] at hx
          exact crcIter_ne_zero rest.length _ (crcRound8_lt e helt)
            (crcRound8_ne_zero e helt (by omega)) hx.symm
      | i + 1 =>
          simp only [List.set_cons_succ, List.getD_cons_succ, List.foldl_cons]
          apply ih (crcByte c b) i e (by simpa using hi) he helt
          · exact crcRound8_lt _ (Nat.xor_lt_two_pow hc (hb b (by simp)))
          · intro x hx; exact hb x (by simp [hx])

theorem shiftLeft8_lor_eq_add (a b : Nat) (hb : b < 2 ^ 8) :
    (a <<< 8) ||| b = a * 2 ^ 8 + b := by
  apply Nat.eq_of_testBit_eq
  intro i
  rw [Nat.testBit_lor, Nat.testBit_shiftLeft, Nat.mul_comm,
    Nat.testBit_mul_pow_two_add a hb i]
  by_cases h : 8 ≤ i
  · have hbi : b.testBit i = false :=
      Nat.testBit_lt_two_pow (lt_of_lt_of_le hb (Nat.pow_le_pow_right (by omega) h))
    simp [h, hbi, Nat.not_lt.mpr h]
  · simp [h, Nat.lt_of_not_le h]

theorem calculateCRC_lt (m : List Nat) (h : ∀ b ∈ m, b < 256) :
    calculateCRC m < 2 ^ 16 :=
  foldl_crcByte_lt m 0xFFFF (by norm_num)
    (fun b hb => lt_trans (h b hb) (by norm_num))

theorem getD_append_left (t : List Nat) :
    ∀ (l : List Nat) (i : Nat), i < l.length → (l ++ t).getD i 0 = l.getD i 0 := by
  intro l
  induction l with
  | nil => intro i hi; exact absurd hi (by simp)
  | cons a rest ih =>
      intro i hi
      match i with
      | 0 => rfl
      | i + 1 =>
          simp only [List.cons_append, List.getD_cons_succ]
          exact ih i (by simpa using hi)

theorem set_append_left (t : List Nat) :
    ∀ (l : List Nat) (i : Nat) (x : Nat), i < l.length →
      (l ++ t).set i x = l.set i x ++ t := by
  intro l
  induction l with
  | nil => intro i x hi; exact absurd hi (by simp)
  | cons a rest ih =>
      intro i x hi
      match i with
      | 0 => rfl
      | i + 1 =>
          simp only [List.cons_append, List.set_cons_succ]
          rw [ih i x (by simpa using hi)]

theorem getD_append_two (x y : Nat) :
    ∀ (l : List Nat), (l ++ [x, y]).getD l.length 0 = x ∧
      (l ++ [x, y]).getD (l.length + 1) 0 = y := by
  intro l
  induction l with
  | nil => exact ⟨rfl, rfl⟩
  | cons a rest ih =>
      exact ⟨by simpa [List.cons_append, List.getD_cons_succ] using ih.1,
        by simpa [List.cons_append, List.getD_cons_succ] using ih.2⟩

theorem set_append_two_left (x y z : Nat) :
    ∀ (l : List Nat), (l ++ [x, y]).set l.length z = l ++ [z, y] := by
  intro l
  induction l with
  | nil => rfl
  | cons a rest ih => simp [List.cons_append, List.set_cons_succ, ih]

theorem set_append_two_right (x y z : Nat) :
    ∀ (l : List Nat), (l ++ [x, y]).set (l.length + 1) z = l ++ [x, z] := by
  intro l
  induction l with
  | nil => rfl
  | cons a rest ih => simp [List.cons_append, List.set_cons_succ, ih]

theorem crc_word_split (crc : Nat) (h : crc < 2 ^ 16) :
    (((crc >>> 8) &&& 0xFF) <<< 8) ||| (crc &&& 0xFF) = crc := by
  have hlo : crc &&& 0xFF = crc % 2 ^ 8 := Nat.and_pow_two_sub_one_eq_mod crc 8
  have hhi8 : crc >>> 8 = crc / 2 ^ 8 := Nat.shiftRight_eq_div_pow crc 8
  have hhiv : crc / 2 ^ 8 < 2 ^ 8 := by omega
  have hhi : (crc >>> 8) &&& 0xFF = crc / 2 ^ 8 := by
    rw [hhi8]
    have h2 := Nat.and_pow_two_sub_one_eq_mod (crc / 2 ^ 8) 8
    rw [Nat.mod_eq_of_lt hhiv] at h2
    exact h2
  rw [hlo, hhi, shiftLeft8_lor_eq_add _ _ (by omega)]
  omega

theorem verifyCRC_append (body : List Nat) (hb : ∀ b ∈ body, b < 256) :
    verifyCRC (appendCRC body) = true := by
  have hcrc := calculateCRC_lt body hb
  have happ : appendCRC body =
      body ++ [calculateCRC body &&& 0xFF, (calculateCRC body >>> 8) &&& 0xFF] := rfl
  simp only [verifyCRC]
  rw [happ]
  have hlen : (body ++ [calculateCRC body &&& 0xFF,
      (calculateCRC body >>> 8) &&& 0xFF]).length = body.length + 2 := by simp
  rw [hlen]
  have e1 : body.length + 2 - 1 = body.length + 1 := by omega
  have e2 : body.length + 2 - 2 = body.length := by omega
  rw [e1, e2]
  rw [(getD_append_two _ _ body).2, (getD_append_two _ _ body).1]
  rw [List.take_left]
  rw [crc_word_split _ hcrc]
  simp

theorem crc_flip_fails (body : List Nat) (hb : ∀ b ∈ body, b < 256)
    (i k : Nat) (hik : i < (appendCRC body).length) (hk : k < 8) :
    verifyCRC (flipBit (appendCRC body) i k) = false := by
  have hcrc := calculateCRC_lt body hb
  have happ : appendCRC body =
      body ++ [calculateCRC body &&& 0xFF, (calculateCRC body >>> 8) &&& 0xFF] := rfl
  have he : (1 <<< k) = 2 ^ k := by rw [Nat.shiftLeft_eq, Nat.one_mul]
  have hepos : 0 < (1 <<< k) := by rw [he]; positivity
  have helt8 : (1 <<< k) < 2 ^ 8 := by
    rw [he]
    calc 2 ^ k ≤ 2 ^ 7 := Nat.pow_le_pow_right (by omega) (by omega)
      _ < 2 ^ 8 := by norm_num
  have helt : (1 <<< k) < 2 ^ 16 := lt_trans helt8 (by norm_num)
  have hlen : (appendCRC body).length = body.length + 2 := by rw [happ]; simp
  rw [hlen] at hik
  have hlo0 : calculateCRC body &&& 0xFF = calculateCRC body % 2 ^ 8 :=
    Nat.and_pow_two_sub_one_eq_mod (calculateCRC body) 8
  have hlo : calculateCRC body &&& 0xFF < 2 ^ 8 := by omega
  have hcases : i < body.length ∨ i = body.length ∨ i = body.length + 1 := by omega
  rcases hcases with hA | hB | hC
  · -- flip inside the CRC'd region: the recomputed CRC changes
    have hflip : flipBit (appendCRC body) i k =
        (body.set i ((body.getD i 0) ^^^ (1 <<< k))) ++
          [calculateCRC body &&& 0xFF, (calculateCRC body >>> 8) &&& 0xFF] := by
      unfold flipBit
      rw [happ, getD_append_left _ body i hA, set_append_left _ body i _ hA]
    have hlen2 : (body.set i ((body.getD i 0) ^^^ (1 <<< k))).length = body.length := by
      simp
    simp only [verifyCRC]
    rw [hflip]
    have hlen3 : ((body.set i ((body.getD i 0) ^^^ (1 <<< k))) ++
        [calculateCRC body &&& 0xFF, (calculateCRC body >>> 8) &&& 0xFF]).length
        = body.length + 2 := by simp
    rw [hlen3]
    have e1 : body.length + 2 - 1 = body.length + 1 := by omega
    have e2 : body.length + 2 - 2 = body.length := by omega
    rw [e1, e2]
    rw [show body.length + 1 =
      (body.set i ((body.getD i 0) ^^^ (1 <<< k))).length + 1 by rw [hlen2]]
    rw [show body.length = (body.set i ((body.getD i 0) ^^^ (1 <<< k))).length
      from hlen2.symm]
    rw [(getD_append_two _ _ _).2, (getD_append_two _ _ _).1]
    rw [List.take_left]
    rw [crc_word_split _ hcrc]
    have hne : calculateCRC (body.set i ((body.getD i 0) ^^^ (1 <<< k))) ≠
        calculateCRC body :=
      crc_flip_ne body 0xFFFF i (1 <<< k) hA hepos helt (by norm_num)
        (fun b hbm => lt_trans (hb b hbm) (by norm_num))
    simp only [beq_eq_false_iff_ne]
    exact fun hcontra => hne hcontra.symm
  · -- flip in the low CRC byte
    subst hB
    have hflip : flipBit (appendCRC body) body.length k =
        body ++ [(calculateCRC body &&& 0xFF) ^^^ (1 <<< k),
          (calculateCRC body >>> 8) &&& 0xFF] := by
      unfold flipBit
      rw [happ, (getD_append_two _ _ body).1, set_append_two_left]
    simp only [verifyCRC]
    rw [hflip]
    have hlen3 : (body ++ [(calculateCRC body &&& 0xFF) ^^^ (1 <<< k),
        (calculateCRC body >>> 8) &&& 0xFF]).length = body.length + 2 := by simp
    rw [hlen3]
    have e1 : body.length + 2 - 1 = body.length + 1 := by omega
    have e2 : body.length + 2 - 2 = body.length := by omega
    rw [e1, e2]
    rw [(getD_append_two _ _ body).2, (getD_append_two _ _ body).1]
    rw [List.take_left]
    simp only [beq_eq_false_iff_ne]
    intro hcontra
    have hsplit := crc_word_split _ hcrc
    rw [shiftLeft8_lor_eq_add _ _ hlo] at hsplit
    rw [shiftLeft8_lor_eq_add _ _ (Nat.xor_lt_two_pow hlo helt8)] at hcontra
    have hxeq : (calculateCRC body &&& 0xFF) ^^^ (1 <<< k) =
        calculateCRC body &&& 0xFF := by omega
    have := xor_xor_self (calculateCRC body &&& 0xFF) (1 <<< k)
    rw [hxeq] at this
    rw [Nat.xor_self] at this
    omega
  · -- flip in the high CRC byte
    subst hC
    have hflip : flipBit (appendCRC body) (body.length + 1) k =
        body ++ [calculateCRC body &&& 0xFF,
          ((calculateCRC body >>> 8) &&& 0xFF) ^^^ (1 <<< k)] := by
      unfold flipBit
      rw [happ, (getD_append_two _ _ body).2, set_append_two_right]
    simp only [verifyCRC]
    rw [hflip]
    have hlen3 : (body ++ [calculateCRC body &&& 0xFF,
        ((calculateCRC body >>> 8) &&& 0xFF) ^^^ (1 <<< k)]).length
        = body.length + 2 := by simp
    rw [hlen3]
    have e1 : body.length + 2 - 1 = body.length + 1 := by omega
    have e2 : body.length + 2 - 2 = body.length := by omega
    rw [e1, e2]
    rw [(getD_append_two _ _ body).2, (getD_append_two _ _ body).1]
    rw [List.take_left]
    simp only [beq_eq_false_iff_ne]
    intro hcontra
    have hsplit := crc_word_split _ hcrc
    rw [shiftLeft8_lor_eq_add _ _ hlo] at hsplit
    rw [shiftLeft8_lor_eq_add _ _ hlo] at hcontra
    have hxeq : ((calculateCRC body >>> 8) &&& 0xFF) ^^^ (1 <<< k) =
        (calculateCRC body >>> 8) &&& 0xFF := by omega
    have := xor_xor_self ((calculateCRC body >>> 8) &&& 0xFF) (1 <<< k)
    rw [hxeq] at this
    rw [Nat.xor_self] at this
    omega

/-- C8: for every byte sequence, append-CRC then verify-CRC succeeds, and
flipping any single bit of the framed sequence (body or appended CRC bytes)
makes the verification fail. -/
theorem c8_crc_round_trip (body : List Nat) (hbytes : ∀ b ∈ body, b < 256) :
    verifyCRC (appendCRC body) = true ∧
    ∀ i k, i < (appendCRC body).length → k < 8 →
      verifyCRC (flipBit (appendCRC body) i k) = false :=
  ⟨verifyCRC_append body hbytes,
    fun i k hik hk => crc_flip_fails body hbytes i k hik hk⟩


/-! ### Claim C2 — range planner -/

/-- The invariant-carrying specification of `groupLoop`. -/
theorem groupLoop_spec (maxRead : Int) :
    ∀ (rest : List PointAddress) (fc start endA : Int) (ids : List String)
      (mems : List PointAddress),
      List.Pairwise paLE rest →
      List.Pairwise sameFcDisjoint rest →
      (∀ p ∈ rest, 1 ≤ p.size ∧ p.size ≤ maxRead) →
      (∀ p ∈ rest, fc < p.functionCode ∨
        (fc = p.functionCode ∧ endA < p.address)) →
      start ≤ endA →
      endA - start + 1 ≤ maxRead →
      ids = mems.map PointAddress.id →
      (∀ q ∈ mems, start ≤ q.address ∧ q.address + q.size - 1 ≤ endA) →
      (∀ q ∈ mems, q.functionCode = fc) →
      (∀ r ∈ groupLoop maxRead rest fc start endA ids, r.quantity ≤ maxRead) ∧
      (∀ r ∈ groupLoop maxRead rest fc start endA ids,
        fc ≤ r.functionCode ∧
          (r.functionCode = fc → start ≤ r.startAddress)) ∧
      List.Pairwise (fun r1 r2 => r1.functionCode = r2.functionCode →
        rangeEnd r1 < r2.startAddress) (groupLoop maxRead rest fc start endA ids) ∧
      ((groupLoop maxRead rest fc start endA ids).map
        AddressRange.pointIds).flatten = ids ++ rest.map PointAddress.id ∧
      (∀ p ∈ mems ++ rest, ∃ r ∈ groupLoop maxRead rest fc start endA ids,
        p.id ∈ r.pointIds ∧ spanInRange p r ∧ r.functionCode = p.functionCode) := by
  intro rest
  induction rest with
  | nil =>
      intro fc start endA ids mems _ _ _ _ hse hqty hids hspans hfcs
      simp only [groupLoop]
      refine ⟨?_, ?_, ?_, ?_, ?_⟩
      · intro r hr
        simp only [List.mem_singleton] at hr
        subst hr
        simp only
        omega
      · intro r hr
        simp only [List.mem_singleton] at hr
        subst hr
        exact ⟨le_refl _, fun _ => le_refl _⟩
      · simp
      · simp
      · intro p hp
        simp only [List.append_nil] at hp
        refine ⟨_, List.mem_singleton_self _, ?_, ?_, ?_⟩
        · rw [hids]
          exact List.mem_map_of_mem _ hp
        · have := hspans p hp
          unfold spanInRange rangeEnd
          simp only
          omega
        · exact (hfcs p hp).symm
  | cons point rest ih =>
      intro fc start endA ids mems hsorted hdisj hsize hnext hse hqty hids hspans hfcs
      have hsorted2 := (List.pairwise_cons.mp hsorted).2
      have hsorted1 := (List.pairwise_cons.mp hsorted).1
      have hdisj2 := (List.pairwise_cons.mp hdisj).2
      have hdisj1 := (List.pairwise_cons.mp hdisj).1
      have hsizep := hsize point (by simp)
      have hsize2 : ∀ p ∈ rest, 1 ≤ p.size ∧ p.size ≤ maxRead :=
        fun p hp => hsize p (by simp [hp])
      have hnextp := hnext point (by simp)
      have hnext_new : ∀ p ∈ rest, point.functionCode < p.functionCode ∨
          (point.functionCode = p.functionCode ∧
            point.address + point.size - 1 < p.address) := by
        intro p hp
        have hle := hsorted1 p hp
        have hd := hdisj1 p hp
        unfold paLE at hle
        unfold sameFcDisjoint at hd
        have hps := hsize2 p hp
        rcases hle with h | ⟨hfceq, haddr⟩
        · exact Or.inl h
        · refine Or.inr ⟨hfceq, ?_⟩
          rcases hd hfceq with h | h <;> omega
      by_cases hfc : point.functionCode ≠ fc
      · -- new range, function code changed
        simp only [groupLoop, if_pos hfc]
        have hfclt : fc < point.functionCode := by
          rcases hnextp with h | ⟨h, _⟩
          · exact h
          · exact absurd h.symm hfc
        have hih := ih point.functionCode point.address
          (point.address + point.size - 1) [point.id] [point]
          hsorted2 hdisj2 hsize2 hnext_new (by omega) (by omega) (by simp)
          (by intro q hq; simp only [List.mem_singleton] at hq; subst hq; omega)
          (by intro q hq; simp only [List.mem_singleton] at hq; subst hq; rfl)
        obtain ⟨ih1, ih2, ih3, ih4, ih5⟩ := hih
        refine ⟨?_, ?_, ?_, ?_, ?_⟩
        · intro r hr
          rcases List.mem_cons.mp hr with hr | hr
          · subst hr; simp only; omega
          · exact ih1 r hr
        · intro r hr
          rcases List.mem_cons.mp hr with hr | hr
          · subst hr
            exact ⟨le_refl _, fun _ => le_refl _⟩
          · have h2 := ih2 r hr
            exact ⟨by omega, fun h => absurd h (by omega)⟩
        · rw [List.pairwise_cons]
          refine ⟨?_, ih3⟩
          intro r hr hfceq
          have h2 := ih2 r hr
          simp only at hfceq
          omega
        · simp only [List.map_cons, List.flatten_cons, ih4]
          simp
        · intro p hp
          rcases List.mem_append.mp hp with hp | hp
          · refine ⟨_, List.mem_cons_self _ _, ?_, ?_, ?_⟩
            · rw [hids]; exact List.mem_map_of_mem _ hp
            · have := hspans p hp
              unfold spanInRange rangeEnd
              simp only
              omega
            · exact (hfcs p hp).symm
          · rcases List.mem_cons.mp hp with hp | hp
            · subst hp
              obtain ⟨r, hr, h1, h2, h3⟩ := ih5 p (by simp)
              exact ⟨r, List.mem_cons_of_mem _ hr, h1, h2, h3⟩
            · obtain ⟨r, hr, h1, h2, h3⟩ := ih5 p (by simp [hp])
              exact ⟨r, List.mem_cons_of_mem _ hr, h1, h2, h3⟩
      · push_neg at hfc
        have hfceq : fc = point.functionCode := hfc.symm
        have haddr : endA < point.address := by
          rcases hnextp with h | ⟨_, h⟩
          · omega
          · exact h
        by_cases hgap : point.address - (endA + 1) > 10 ∨
            point.address + point.size - start > maxRead
        · -- new range, same function code (gap or size cap)
          simp only [groupLoop, if_neg (by omega : ¬ point.functionCode ≠ fc),
            if_pos hgap]
          have hih := ih fc point.address
            (point.address + point.size - 1) [point.id] [point]
            hsorted2 hdisj2 hsize2
            (by
              intro p hp
              rcases hnext_new p hp with h | ⟨h, h2⟩
              · exact Or.inl (by omega)
              · exact Or.inr ⟨by omega, h2⟩)
            (by omega) (by omega) (by simp)
            (by intro q hq; simp only [List.mem_singleton] at hq; subst hq; omega)
            (by intro q hq; simp only [List.mem_singleton] at hq; subst hq; omega)
          obtain ⟨ih1, ih2, ih3, ih4, ih5⟩ := hih
          refine ⟨?_, ?_, ?_, ?_, ?_⟩
          · intro r hr
            rcases List.mem_cons.mp hr with hr | hr
            · subst hr; simp only; omega
            · exact ih1 r hr
          · intro r hr
            rcases List.mem_cons.mp hr with hr | hr
            · subst hr
              exact ⟨le_refl _, fun _ => le_refl _⟩
            · have h2 := ih2 r hr
              exact ⟨h2.1, fun h => by
                have := h2.2 h
                omega⟩
          · rw [List.pairwise_cons]
            refine ⟨?_, ih3⟩
            intro r hr hfceq2
            have h2 := ih2 r hr
            have h3 := h2.2 (by simp only at hfceq2 ⊢; omega)
            unfold rangeEnd
            simp only
            omega
          · simp only [List.map_cons, List.flatten_cons, ih4]
            simp
          · intro p hp
            rcases List.mem_append.mp hp with hp | hp
            · refine ⟨_, List.mem_cons_self _ _, ?_, ?_, ?_⟩
              · rw [hids]; exact List.mem_map_of_mem _ hp
              · have := hspans p hp
                unfold spanInRange rangeEnd
                simp only
                omega
              · exact (hfcs p hp).symm
            · rcases List.mem_cons.mp hp with hp | hp
              · subst hp
                obtain ⟨r, hr, h1, h2, h3⟩ := ih5 p (by simp)
                exact ⟨r, List.mem_cons_of_mem _ hr, h1, h2, h3⟩
              · obtain ⟨r, hr, h1, h2, h3⟩ := ih5 p (by simp [hp])
                exact ⟨r, List.mem_cons_of_mem _ hr, h1, h2, h3⟩
        · -- extend the current range
          simp only [groupLoop, if_neg (by omega : ¬ point.functionCode ≠ fc),
            if_neg hgap]
          have hend2 : max endA (point.address + point.size - 1) =
              point.address + point.size - 1 := by
            have := hsizep
            omega
          rw [hend2]
          have hih := ih fc start (point.address + point.size - 1)
            (ids ++ [point.id]) (mems ++ [point])
            hsorted2 hdisj2 hsize2
            (by
              intro p hp
              rcases hnext_new p hp with h | ⟨h, h2⟩
              · exact Or.inl (by omega)
              · exact Or.inr ⟨by omega, h2⟩)
            (by omega) (by omega)
            (by rw [hids]; simp)
            (by
              intro q hq
              rcases List.mem_append.mp hq with hq | hq
              · have := hspans q hq
                omega
              · simp only [List.mem_singleton] at hq
                subst hq
                omega)
            (by
              intro q hq
              rcases List.mem_append.mp hq with hq | hq
              · exact hfcs q hq
              · simp only [List.mem_singleton] at hq
                subst hq
                omega)
          obtain ⟨ih1, ih2, ih3, ih4, ih5⟩ := hih
          refine ⟨ih1, ?_, ih3, ?_, ?_⟩
          · intro r hr
            have h2 := ih2 r hr
            exact ⟨h2.1, h2.2⟩
          · rw [ih4]
            simp
          · intro p hp
            apply ih5
            rcases List.mem_append.mp hp with hp | hp
            · exact List.mem_append.mpr (Or.inl (List.mem_append.mpr (Or.inl hp)))
            · rcases List.mem_cons.mp hp with hp | hp
              · subst hp
                exact List.mem_append.mpr (Or.inl (List.mem_append.mpr
                  (Or.inr (List.mem_singleton_self _))))
              · exact List.mem_append.mpr (Or.inr hp)

theorem sameFcDisjoint_symm : Symmetric sameFcDisjoint := by
  intro a b h hfc
  rcases h hfc.symm with h2 | h2
  · exact Or.inr h2
  · exact Or.inl h2

theorem flatten_nodup_unique :
    ∀ (out : List AddressRange),
      ((out.map AddressRange.pointIds).flatten).Nodup →
      ∀ r1 ∈ out, ∀ r2 ∈ out, ∀ x : String,
        x ∈ r1.pointIds → x ∈ r2.pointIds → r1 = r2 := by
  intro out
  induction out with
  | nil =>
      intro _ r1 h
      exact absurd h (by simp)
  | cons a tail ih =>
      intro hnodup r1 hr1 r2 hr2 x hx1 hx2
      simp only [List.map_cons, List.flatten_cons] at hnodup
      have hn := List.nodup_append.mp hnodup
      rcases List.mem_cons.mp hr1 with h1 | h1 <;>
        rcases List.mem_cons.mp hr2 with h2 | h2
      · rw [h1, h2]
      · subst h1
        exact absurd (List.mem_flatten.mpr
          ⟨r2.pointIds, List.mem_map_of_mem _ h2, hx2⟩) (hn.2.2 hx1)
      · subst h2
        exact absurd (List.mem_flatten.mpr
          ⟨r1.pointIds, List.mem_map_of_mem _ h1, hx1⟩)
          (fun hmem => hn.2.2 hx2 hmem)
      · exact ih hn.2.1 r1 h1 r2 h2 x hx1 hx2

theorem analyzeRanges_spec (pas : List PointAddress) (maxRead : Int)
    (hsize : ∀ p ∈ pas, 1 ≤ p.size ∧ p.size ≤ maxRead)
    (hdisj : pas.Pairwise sameFcDisjoint)
    (hnodup : (pas.map PointAddress.id).Nodup) :
    (∀ r ∈ analyzeRanges pas maxRead, r.quantity ≤ maxRead) ∧
    List.Pairwise (fun r1 r2 => r1.functionCode = r2.functionCode →
      rangesDisjoint r1 r2) (analyzeRanges pas maxRead) ∧
    (∀ p ∈ pas, ∃! r, r ∈ analyzeRanges pas maxRead ∧
      p.id ∈ r.pointIds ∧ spanInRange p r) := by
  have hperm : List.Perm (List.insertionSort paLE pas) pas :=
    List.perm_insertionSort paLE pas
  have hsorted : List.Pairwise paLE (List.insertionSort paLE pas) :=
    List.sorted_insertionSort paLE pas
  have hdisjS : (List.insertionSort paLE pas).Pairwise sameFcDisjoint :=
    (hperm.pairwise_iff (fun h => sameFcDisjoint_symm h)).mpr hdisj
  have hsizeS : ∀ p ∈ List.insertionSort paLE pas, 1 ≤ p.size ∧ p.size ≤ maxRead :=
    fun p hp => hsize p (hperm.mem_iff.mp hp)
  have hnodupS : ((List.insertionSort paLE pas).map PointAddress.id).Nodup :=
    ((hperm.map PointAddress.id).nodup_iff).mpr hnodup
  have hmemS : ∀ p, p ∈ pas ↔ p ∈ List.insertionSort paLE pas :=
    fun p => (hperm.mem_iff).symm
  cases hs : List.insertionSort paLE pas with
  | nil =>
      have hpas : pas = [] := by
        have := hperm
        rw [hs] at this
        exact this.symm.eq_nil
      subst hpas
      refine ⟨?_, ?_, ?_⟩
      · intro r hr
        simp [analyzeRanges] at hr
      · simp [analyzeRanges]
      · intro p hp
        exact absurd hp (by simp)
  | cons p0 rest =>
      rw [hs] at hsorted hdisjS hsizeS hnodupS
      have hsorted1 := (List.pairwise_cons.mp hsorted).1
      have hsorted2 := (List.pairwise_cons.mp hsorted).2
      have hdisj1 := (List.pairwise_cons.mp hdisjS).1
      have hdisj2 := (List.pairwise_cons.mp hdisjS).2
      have hsizep := hsizeS p0 (by simp)
      have hsize2 : ∀ p ∈ rest, 1 ≤ p.size ∧ p.size ≤ maxRead :=
        fun p hp => hsizeS p (by simp [hp])
      have hnext : ∀ p ∈ rest, p0.functionCode < p.functionCode ∨
          (p0.functionCode = p.functionCode ∧
            p0.address + p0.size - 1 < p.address) := by
        intro p hp
        have hle := hsorted1 p hp
        have hd := hdisj1 p hp
        unfold paLE at hle
        unfold sameFcDisjoint at hd
        have hps := hsize2 p hp
        rcases hle with h | ⟨hfceq, haddr⟩
        · exact Or.inl h
        · refine Or.inr ⟨hfceq, ?_⟩
          rcases hd hfceq with h | h <;> omega
      have hout : analyzeRanges pas maxRead =
          groupLoop maxRead rest p0.functionCode p0.address
            (p0.address + p0.size - 1) [p0.id] := by
        simp only [analyzeRanges, hs]
      have hspec := groupLoop_spec maxRead rest p0.functionCode p0.address
        (p0.address + p0.size - 1) [p0.id] [p0]
        hsorted2 hdisj2 hsize2 hnext (by omega) (by omega) (by simp)
        (by intro q hq; simp only [List.mem_singleton] at hq; subst hq; omega)
        (by intro q hq; simp only [List.mem_singleton] at hq; subst hq; rfl)
      obtain ⟨ih1, ih2, ih3, ih4, ih5⟩ := hspec
      have hflatten : ((analyzeRanges pas maxRead).map
          AddressRange.pointIds).flatten = (p0 :: rest).map PointAddress.id := by
        rw [hout, ih4]
        simp
      have hflatnodup : (((analyzeRanges pas maxRead).map
          AddressRange.pointIds).flatten).Nodup := by
        rw [hflatten]
        exact hnodupS
      refine ⟨?_, ?_, ?_⟩
      · intro r hr
        rw [hout] at hr
        exact ih1 r hr
      · rw [hout]
        exact ih3.imp (fun h hfceq => Or.inl (h hfceq))
      · intro p hp
        have hpS : p ∈ p0 :: rest := by
          rw [← hs]
          exact (hmemS p).mp hp
        have hpM : p ∈ ([p0] : List PointAddress) ++ rest := by
          simpa using hpS
        obtain ⟨r, hr, h1, h2, _⟩ := ih5 p hpM
        refine ⟨r, ⟨by rw [hout]; exact hr, h1, h2⟩, ?_⟩
        intro r2 hr2
        exact flatten_nodup_unique (analyzeRanges pas maxRead) hflatnodup
          r2 hr2.1 r (by rw [hout]; exact hr) p.id hr2.2.1 h1

/-- Every planner working entry has size at least one register. -/
theorem toPointAddresses_size_pos (points : List (String × DataPointConfig)) :
    ∀ p ∈ toPointAddresses points, 1 ≤ p.size := by
  intro p hp
  unfold toPointAddresses at hp
  rw [List.mem_filterMap] at hp
  obtain ⟨q, _, hf⟩ := hp
  cases hpc : q.2.pointConfig with
  | none => rw [hpc] at hf; simp at hf
  | some modbus =>
      rw [hpc] at hf
      simp only [Option.some.injEq] at hf
      subst hf
      simp only
      unfold getPointSize
      cases q.2.datatype <;> norm_num

/-- C2 counterexample: with cap `M = 1` and the two overlapping `int32` points
of `c2Points`, the planner emits a range of quantity `2 > M`, and the two
emitted ranges of the same function code overlap at address 1 — so neither
"each produced range has quantity ≤ M" nor "ranges with the same function code
are pairwise disjoint" holds for every point set and every cap. -/
theorem c2_planner_cap_violated :
    analyzeAddressRanges c2Points 1 =
      [{ startAddress := 0, quantity := 2, functionCode := 3, pointIds := ["p1"] },
       { startAddress := 1, quantity := 2, functionCode := 3, pointIds := ["p2"] }] ∧
    ¬ ((2 : Int) ≤ 1) ∧
    ¬ rangesDisjoint
        { startAddress := 0, quantity := 2, functionCode := 3, pointIds := ["p1"] }
        { startAddress := 1, quantity := 2, functionCode := 3, pointIds := ["p2"] } := by
  decide

/-- C2 (amended): provided every point's register size is at most the cap `M`
and points of the same function code occupy pairwise disjoint register spans
(with distinct ids, as the C++ point map guarantees), every produced range has
quantity ≤ M, ranges with the same function code are pairwise disjoint in
address, and every input point's full register span lies inside exactly one
produced range. -/
theorem c2_planner_amended (points : List (String × DataPointConfig))
    (maxRead : Int)
    (hsize : ∀ p ∈ toPointAddresses points, p.size ≤ maxRead)
    (hdisj : (toPointAddresses points).Pairwise sameFcDisjoint)
    (hnodup : ((toPointAddresses points).map PointAddress.id).Nodup) :
    (∀ r ∈ analyzeAddressRanges points maxRead, r.quantity ≤ maxRead) ∧
    List.Pairwise (fun r1 r2 => r1.functionCode = r2.functionCode →
      rangesDisjoint r1 r2) (analyzeAddressRanges points maxRead) ∧
    (∀ p ∈ toPointAddresses points, ∃! r,
      r ∈ analyzeAddressRanges points maxRead ∧ p.id ∈ r.pointIds ∧
        spanInRange p r) :=
  analyzeRanges_spec (toPointAddresses points) maxRead
    (fun p hp => ⟨toPointAddresses_size_pos points p hp, hsize p hp⟩)
    hdisj hnodup

/-- C2 witness: the spec §8 scenario 3 point set with the default cap 120. -/
theorem c2_planner_amended_witness :
    (∀ p ∈ toPointAddresses c2wPoints, p.size ≤ (120 : Int)) ∧
    (toPointAddresses c2wPoints).Pairwise sameFcDisjoint ∧
    ((toPointAddresses c2wPoints).map PointAddress.id).Nodup ∧
    ((∀ r ∈ analyzeAddressRanges c2wPoints 120, r.quantity ≤ (120 : Int)) ∧
      List.Pairwise (fun r1 r2 => r1.functionCode = r2.functionCode →
        rangesDisjoint r1 r2) (analyzeAddressRanges c2wPoints 120) ∧
      (∀ p ∈ toPointAddresses c2wPoints, ∃! r,
        r ∈ analyzeAddressRanges c2wPoints 120 ∧ p.id ∈ r.pointIds ∧
          spanInRange p r)) :=
  ⟨by decide, by decide, by decide,
    c2_planner_amended c2wPoints 120 (by decide) (by decide) (by decide)⟩

/-! ### Claim C9 — point-table function-code defaulting -/

/-- C9: when the `functioncode` column is absent, the loaded point's function
code is derived from its point type as DI→2, AI→4, DO→5, AO→6; when the
column is present (and the row has that cell), the configured value is used
unchanged (`std::stoi` of the cell). -/
theorem c9_function_code_default (funcCodeCol : Option Nat)
    (tokens : List String) (type : PointType) :
    (funcCodeCol = none →
      selectFunctionCode funcCodeCol tokens type =
        some (defaultFunctionCode type) ∧
      defaultFunctionCode PointType.DI = 2 ∧
      defaultFunctionCode PointType.AI = 4 ∧
      defaultFunctionCode PointType.DO = 5 ∧
      defaultFunctionCode PointType.AO = 6) ∧
    (∀ c, funcCodeCol = some c → c < tokens.length →
      selectFunctionCode funcCodeCol tokens type = stoiModel (tokens.getD c "")) := by
  constructor
  · intro h
    subst h
    exact ⟨rfl, rfl, rfl, rfl, rfl⟩
  · intro c h hc
    subst h
    simp only [selectFunctionCode]
    rw [if_pos hc]

/-- C9 witness: with the column absent a DI point gets function code 2; with
the column present the cell value `"16"` is used unchanged. -/
theorem c9_function_code_default_witness :
    ((none : Option Nat) = none →
      selectFunctionCode none [] PointType.DI =
        some (defaultFunctionCode PointType.DI) ∧
      defaultFunctionCode PointType.DI = 2 ∧
      defaultFunctionCode PointType.AI = 4 ∧
      defaultFunctionCode PointType.DO = 5 ∧
      defaultFunctionCode PointType.AO = 6) ∧
    selectFunctionCode (some 0) ["16"] PointType.DI = stoiModel "16" :=
  ⟨(c9_function_code_default none [] PointType.DI).1,
    (c9_function_code_default (some 0) ["16"] PointType.DI).2 0 rfl (by decide)⟩

/-- C8 witness: the spec §8 scenario 1 frame `01 03 00 64 00 01` (whose
appended CRC is `C5 D5`). -/
theorem c8_crc_round_trip_witness :
    (∀ b ∈ ([0x01, 0x03, 0x00, 0x64, 0x00, 0x01] : List Nat), b < 256) ∧
    verifyCRC (appendCRC [0x01, 0x03, 0x00, 0x64, 0x00, 0x01]) = true ∧
    ∀ i k, i < (appendCRC [0x01, 0x03, 0x00, 0x64, 0x00, 0x01]).length → k < 8 →
      verifyCRC (flipBit (appendCRC [0x01, 0x03, 0x00, 0x64, 0x00, 0x01]) i k)
        = false :=
  ⟨by decide, c8_crc_round_trip [0x01, 0x03, 0x00, 0x64, 0x00, 0x01] (by decide)⟩

end Comsrv
